import Mathlib

/-!
Verification of the domain-checker bot (`domain_manager.py`, `whois_checker.py`,
`bot.py`) against its specification.

The development shallowly embeds the Python sources:
* Python strings are Lean `String`s; `str.lower()` / `str.strip()` are modelled
  character-wise over `String.data` (`pyLower`, `pyStrip`), covering the ASCII
  case mapping and the whitespace set CPython strips by default.
* The JSON store of `DomainManager` is an association list of accounts, each
  carrying its ordered list of domains (Python dicts preserve insertion order;
  duplicate keys cannot occur, so first-match update/delete coincides with dict
  behaviour).
* The asynchronous WHOIS lookup is a pure function of an oracle describing the
  network outcome for each domain; `asyncio.gather`'s reordering of results by
  task index is modelled explicitly over an arbitrary completion order.
-/

/-! ## Python string primitives -/

/-- The characters removed by Python `str.strip()` with no argument:
space, tab, newline, carriage return, vertical tab, form feed. -/
def pyIsSpace (c : Char) : Bool :=
  c.toNat = 32 || c.toNat = 9 || c.toNat = 10 || c.toNat = 13 ||
  c.toNat = 11 || c.toNat = 12

/-- ASCII case mapping of Python `str.lower()` (A-Z ↦ a-z, all else fixed). -/
def pyLowerChar (c : Char) : Char :=
  if 65 ≤ c.toNat ∧ c.toNat ≤ 90 then Char.ofNat (c.toNat + 32) else c

/-- Python `s.lower()`. -/
def pyLower (s : String) : String := String.mk (s.data.map pyLowerChar)

/-- Remove trailing whitespace (the right half of `str.strip()`). -/
def dropTrailing (l : List Char) : List Char :=
  (l.reverse.dropWhile pyIsSpace).reverse

/-- Python `s.strip()`. -/
def pyStrip (s : String) : String :=
  String.mk (dropTrailing (s.data.dropWhile pyIsSpace))

/-- `domain.lower().strip()`, the normalisation applied by every
`DomainManager` operation before storing or comparing a domain. -/
def pyNorm (s : String) : String := pyStrip (pyLower s)

theorem charOfNat_toNat_small {n : Nat} (h : n < 1000) :
    (Char.ofNat n).toNat = n := by
  have hv : n.isValidChar := Or.inl (by omega)
  rw [Char.ofNat, dif_pos hv]
  simp [Char.ofNatAux, Char.toNat, UInt32.toNat, BitVec.toNat_ofNatLt]

theorem pyLowerChar_idem (c : Char) : pyLowerChar (pyLowerChar c) = pyLowerChar c := by
  unfold pyLowerChar
  by_cases h : 65 ≤ c.toNat ∧ c.toNat ≤ 90
  · rw [if_pos h]
    rw [charOfNat_toNat_small (by omega)]
    rw [if_neg (by omega)]
  · rw [if_neg h, if_neg h]

theorem pyIsSpace_pyLowerChar (c : Char) : pyIsSpace (pyLowerChar c) = pyIsSpace c := by
  unfold pyLowerChar
  by_cases h : 65 ≤ c.toNat ∧ c.toNat ≤ 90
  · rw [if_pos h]
    have h32 : (Char.ofNat (c.toNat + 32)).toNat = c.toNat + 32 :=
      charOfNat_toNat_small (by omega)
    have hl : pyIsSpace (Char.ofNat (c.toNat + 32)) = false := by
      simp only [pyIsSpace, h32, Bool.or_eq_false_iff, decide_eq_false_iff_not]
      omega
    have hr : pyIsSpace c = false := by
      simp only [pyIsSpace, Bool.or_eq_false_iff, decide_eq_false_iff_not]
      omega
    rw [hl, hr]
  · rw [if_neg h]

theorem dropWhile_idem {α : Type} (p : α → Bool) (l : List α) :
    (l.dropWhile p).dropWhile p = l.dropWhile p := by
  induction l with
  | nil => rfl
  | cons c t ih =>
    by_cases h : p c
    · rw [List.dropWhile_cons, if_pos h]
      exact ih
    · rw [List.dropWhile_cons, if_neg h, List.dropWhile_cons, if_neg h]

theorem dropTrailing_idem (l : List Char) :
    dropTrailing (dropTrailing l) = dropTrailing l := by
  unfold dropTrailing
  rw [List.reverse_reverse, dropWhile_idem]

theorem dropTrailing_cons_of_ne (c : Char) (t : List Char)
    (h : (t.reverse.dropWhile pyIsSpace) ≠ []) :
    dropTrailing (c :: t) = c :: dropTrailing t := by
  unfold dropTrailing
  rw [List.reverse_cons, List.dropWhile_append]
  rw [if_neg (by simpa [List.isEmpty_iff] using h)]
  rw [List.reverse_append]
  rfl

theorem dropTrailing_dropWhile (l : List Char) :
    dropTrailing (l.dropWhile pyIsSpace) = (dropTrailing l).dropWhile pyIsSpace := by
  induction l with
  | nil => rfl
  | cons c t ih =>
    by_cases hp : pyIsSpace c
    · rw [List.dropWhile_cons, if_pos hp]
      by_cases he : (t.reverse.dropWhile pyIsSpace) = []
      · have h1 : dropTrailing (c :: t) = [] := by
          unfold dropTrailing
          rw [List.reverse_cons, List.dropWhile_append,
            if_pos (by simpa [List.isEmpty_iff] using he)]
          simp [List.dropWhile_cons, hp]
        have h2 : dropTrailing t = [] := by
          unfold dropTrailing; rw [he]; rfl
        rw [ih, h1, h2]
      · rw [dropTrailing_cons_of_ne c t he, ih, List.dropWhile_cons, if_pos hp]
    · rw [List.dropWhile_cons, if_neg hp]
      by_cases he : (t.reverse.dropWhile pyIsSpace) = []
      · have h1 : dropTrailing (c :: t) = [c] := by
          unfold dropTrailing
          rw [List.reverse_cons, List.dropWhile_append,
            if_pos (by simpa [List.isEmpty_iff] using he)]
          simp [List.dropWhile_cons, hp]
        rw [h1, List.dropWhile_cons, if_neg hp]
      · rw [dropTrailing_cons_of_ne c t he, List.dropWhile_cons, if_neg hp]

theorem pyStrip_data (s : String) :
    (pyStrip s).data = dropTrailing (s.data.dropWhile pyIsSpace) := rfl

theorem pyStrip_idem (s : String) : pyStrip (pyStrip s) = pyStrip s := by
  unfold pyStrip
  congr 1
  show dropTrailing ((dropTrailing (s.data.dropWhile pyIsSpace)).dropWhile pyIsSpace) =
    dropTrailing (s.data.dropWhile pyIsSpace)
  rw [← dropTrailing_dropWhile, dropWhile_idem, dropTrailing_idem]

theorem pyLower_idem (s : String) : pyLower (pyLower s) = pyLower s := by
  unfold pyLower
  congr 1
  show (s.data.map pyLowerChar).map pyLowerChar = s.data.map pyLowerChar
  rw [List.map_map]
  exact List.map_congr_left (fun c _ => pyLowerChar_idem c)

theorem dropWhile_map_pyLower (l : List Char) :
    (l.map pyLowerChar).dropWhile pyIsSpace = (l.dropWhile pyIsSpace).map pyLowerChar := by
  rw [List.dropWhile_map]
  have hf : (pyIsSpace ∘ pyLowerChar) = pyIsSpace := funext pyIsSpace_pyLowerChar
  rw [hf]

theorem dropTrailing_map_pyLower (l : List Char) :
    dropTrailing (l.map pyLowerChar) = (dropTrailing l).map pyLowerChar := by
  unfold dropTrailing
  rw [← List.map_reverse, dropWhile_map_pyLower, List.map_reverse]

theorem pyLower_pyStrip (s : String) : pyLower (pyStrip s) = pyStrip (pyLower s) := by
  unfold pyLower pyStrip
  congr 1
  show (dropTrailing (s.data.dropWhile pyIsSpace)).map pyLowerChar =
    dropTrailing ((s.data.map pyLowerChar).dropWhile pyIsSpace)
  rw [dropWhile_map_pyLower, dropTrailing_map_pyLower]

/-- The output of the normalisation is already lowercase. -/
theorem pyLower_pyNorm (s : String) : pyLower (pyNorm s) = pyNorm s := by
  unfold pyNorm
  rw [pyLower_pyStrip, pyLower_idem]

/-- The output of the normalisation is already stripped. -/
theorem pyStrip_pyNorm (s : String) : pyStrip (pyNorm s) = pyNorm s := by
  unfold pyNorm
  rw [pyStrip_idem]

/-- Normalising twice is the same as normalising once. -/
theorem pyNorm_idem (s : String) : pyNorm (pyNorm s) = pyNorm s := by
  unfold pyNorm
  rw [pyLower_pyStrip, pyLower_idem, pyStrip_idem]

/-! ## whois_checker.py — data model -/

/-- `DomainInfo` (dataclass, whois_checker.py lines 8-15).  The expiry
timestamp is the parsed `(year, month, day)` at midnight. -/
structure DomainInfo where
  domain : String
  expiry_date : Option (Nat × Nat × Nat)
  days_left : Option Int
  registrar : Option String
  is_expiring_soon : Bool
  error : Option String := none
deriving DecidableEq, Repr

/-- The value of the `"paid"` JSON field as the Python code can observe it:
a string, or a list of candidate date strings. -/
inductive PaidValue where
  | pstr (s : String)
  | plist (l : List String)
deriving DecidableEq, Repr

/-- One network interaction of `check_domain_async`, as observable from the
code: an HTTP response with a status and (for status 200) the decoded JSON
fields, a timeout, or any other exception with its message. -/
inductive LookupOutcome where
  | http (status : Nat) (paid : Option PaidValue) (registrar : Option String)
  | timeout
  | failure (msg : String)
deriving DecidableEq, Repr

/-! ## Date parsing (`datetime.strptime` with the two recognised formats) -/

def isLeap (y : Nat) : Bool := y % 4 = 0 && (y % 100 ≠ 0 || y % 400 = 0)

def daysInMonth (y m : Nat) : Nat :=
  if m = 2 then (if isLeap y then 29 else 28)
  else if m = 4 ∨ m = 6 ∨ m = 9 ∨ m = 11 then 30 else 31

/-- `datetime(year, month, day)` constructor validation; out-of-range
components raise `ValueError`, which `strptime` surfaces as a parse
failure. -/
def mkDate (y m d : Nat) : Option (Nat × Nat × Nat) :=
  if 1 ≤ y ∧ y ≤ 9999 ∧ 1 ≤ m ∧ m ≤ 12 ∧ 1 ≤ d ∧ d ≤ daysInMonth y m then
    some (y, m, d)
  else none

/-- Split a character list at every occurrence of `sep` (the behaviour of
`str.split` with a one-character separator, used here to model the
field/separator structure of the two `strptime` format strings). -/
def splitOnChar (sep : Char) : List Char → List (List Char)
  | [] => [[]]
  | c :: t =>
    match splitOnChar sep t with
    | [] => [[c]]
    | g :: gs => if c = sep then [] :: g :: gs else (c :: g) :: gs

def pySplit (s : String) (sep : Char) : List String :=
  (splitOnChar sep s.data).map String.mk

def parseDigitsAux : List Char → Nat → Option Nat
  | [], acc => some acc
  | c :: t, acc =>
    if 48 ≤ c.toNat ∧ c.toNat ≤ 57 then
      parseDigitsAux t (acc * 10 + (c.toNat - 48))
    else none

/-- The numeric value of a non-empty all-digit string, `none` otherwise. -/
def parseDigits (s : String) : Option Nat :=
  match s.data with
  | [] => none
  | l => parseDigitsAux l 0

/-- A `%d` / `%m` field: one or two digits. -/
def parseField2 (s : String) : Option Nat :=
  if 1 ≤ s.length ∧ s.length ≤ 2 then parseDigits s else none

/-- A `%Y` field: exactly four digits. -/
def parseField4 (s : String) : Option Nat :=
  if s.length = 4 then parseDigits s else none

/-- `datetime.strptime(s, "%d.%m.%Y")`. -/
def strptimeDMY (s : String) : Option (Nat × Nat × Nat) :=
  match pySplit s '.' with
  | [ds, ms, ys] =>
    match parseField2 ds, parseField2 ms, parseField4 ys with
    | some d, some m, some y => mkDate y m d
    | _, _, _ => none
  | _ => none

/-- `datetime.strptime(s, "%Y-%m-%d")`. -/
def strptimeYMD (s : String) : Option (Nat × Nat × Nat) :=
  match pySplit s '-' with
  | [ys, ms, ds] =>
    match parseField4 ys, parseField2 ms, parseField2 ds with
    | some y, some m, some d => mkDate y m d
    | _, _, _ => none
  | _ => none

/-- Days from 1970-01-01 to the given civil date (Hinnant's
`days_from_civil`); the day component of Python `datetime` subtraction. -/
def daysFromCivil (y m d : Int) : Int :=
  let y1 : Int := if m ≤ 2 then y - 1 else y
  let era : Int := Int.fdiv y1 400
  let yoe : Int := y1 - era * 400
  let mp : Int := if m ≤ 2 then m + 9 else m - 3
  let doy : Int := Int.fdiv (153 * mp + 2) 5 + d - 1
  let doe : Int := yoe * 365 + Int.fdiv yoe 4 - Int.fdiv yoe 100 + doy
  era * 146097 + doe - 719468

/-- `(expiry_date - datetime.now()).days` with `now` in seconds since the
epoch; `timedelta.days` floors the exact difference. -/
def daysLeftOf (date : Nat × Nat × Nat) (now : Int) : Int :=
  Int.fdiv (daysFromCivil (date.1 : Int) (date.2.1 : Int) (date.2.2 : Int) * 86400 - now) 86400

/-! ## check_domain_async -/

/-- Python `s[:n]`. -/
def pyTruncate (s : String) (n : Nat) : String := String.mk (s.data.take n)

/-- `str(e)` for the `TypeError` that `datetime.strptime` raises when its
first argument is a list rather than a string. -/
def strptimeTypeError : String := "strptime() argument 1 must be str, not list"

/-- `check_domain_async(domain, warning_days, session)` (whois_checker.py
lines 18-102) as a function of the network outcome `oracle domain` and of
the current time `now` (seconds since the epoch).  Every branch of the
Python function is represented: non-200 status, falsy `"paid"` field,
the two date formats, the `TypeError` escape for a list-valued `"paid"`
(caught by the final `except Exception` handler, hence no registrar),
timeout, and the generic exception handler with its `str(e)[:50]`. -/
def check_domain_async (oracle : String → LookupOutcome) (now : Int)
    (domain : String) (warning_days : Int) : DomainInfo :=
  match oracle domain with
  | .timeout => ⟨domain, none, none, none, false, some "Таймаут"⟩
  | .failure msg => ⟨domain, none, none, none, false, some (pyTruncate msg 50)⟩
  | .http status paid registrar =>
    if status ≠ 200 then
      ⟨domain, none, none, none, false, some ("HTTP " ++ toString status)⟩
    else
      match paid with
      | none =>
        ⟨domain, none, none, registrar, false, some "Дата не найдена"⟩
      | some (.pstr s) =>
        if s = "" then
          ⟨domain, none, none, registrar, false, some "Дата не найдена"⟩
        else
          match strptimeDMY s with
          | some date =>
            let dl := daysLeftOf date now
            ⟨domain, some date, some dl, registrar, decide (dl < warning_days), none⟩
          | none =>
            match strptimeYMD s with
            | some date =>
              let dl := daysLeftOf date now
              ⟨domain, some date, some dl, registrar, decide (dl < warning_days), none⟩
            | none =>
              ⟨domain, none, none, registrar, false, some ("Формат даты: " ++ s)⟩
      | some (.plist l) =>
        if l.isEmpty then
          ⟨domain, none, none, registrar, false, some "Дата не найдена"⟩
        else
          ⟨domain, none, none, none, false, some (pyTruncate strptimeTypeError 50)⟩

/-! ## check_domains_batch -/

/-- The indexed tasks created by `check_domains_batch`, one per input domain
in input order (each task's value is what the awaited coroutine returns). -/
def batchTasks (oracle : String → LookupOutcome) (now : Int)
    (domains : List String) (warning_days : Int) : List (Nat × DomainInfo) :=
  domains.enum.map (fun p => (p.1, check_domain_async oracle now p.2 warning_days))

/-- `asyncio.gather`: completed tasks are re-indexed by task position,
whatever order they finished in. -/
def gather (n : Nat) (completed : List (Nat × DomainInfo)) : List DomainInfo :=
  (List.range n).filterMap
    (fun i => (completed.find? (fun p => p.1 == i)).map Prod.snd)

/-- `check_domains_batch(domains, warning_days)` (whois_checker.py lines
105-111): `completed` is the multiset of finished tasks in an arbitrary
completion order; `gather` restores input order. -/
def check_domains_batch (domains : List String)
    (completed : List (Nat × DomainInfo)) : List DomainInfo :=
  gather domains.length completed

/-! ## format_domain_info -/

/-- The tier indicator chosen by `format_domain_info` (lines 140-148).
The source reads `info.days_left` only when `expiry_date` is set, in which
case `check_domain_async` always supplies it, so the `getD` default is
never the value used on reachable inputs. -/
def tierEmoji (info : DomainInfo) : String :=
  if info.is_expiring_soon then "🔴"
  else if info.days_left.getD 0 ≤ 60 then "🟡"
  else "🟢"

def pad2 (n : Nat) : String := if n < 10 then "0" ++ toString n else toString n

def pad4 (n : Nat) : String :=
  if n < 10 then "000" ++ toString n
  else if n < 100 then "00" ++ toString n
  else if n < 1000 then "0" ++ toString n
  else toString n

/-- `expiry_date.strftime("%d.%m.%Y")`. -/
def fmtDMY (date : Nat × Nat × Nat) : String :=
  pad2 date.2.2 ++ "." ++ pad2 date.2.1 ++ "." ++ pad4 date.1

/-- `format_domain_info(info)` (whois_checker.py lines 130-157). -/
def format_domain_info (info : DomainInfo) : String :=
  match info.error with
  | some err => "❌ " ++ info.domain ++ "\n   Ошибка: " ++ err
  | none =>
    match info.expiry_date with
    | none => "⚠️ " ++ info.domain ++ "\n   Дата не определена"
    | some date =>
      let expiry_str := fmtDMY date
      let dl := info.days_left.getD 0
      let status :=
        if info.is_expiring_soon then "ИСТЕКАЕТ ЧЕРЕЗ " ++ toString dl ++ " дн!"
        else "Осталось " ++ toString dl ++ " дн"
      let base := tierEmoji info ++ " " ++ info.domain ++ "\n   Истекает: " ++
        expiry_str ++ "\n   Статус: " ++ status
      match info.registrar with
      | some r => if r ≠ "" then base ++ "\n   Регистратор: " ++ r else base
      | none => base

/-! ## domain_manager.py -/

/-- The persisted `{"accounts": {...}}` mapping: account → ordered domain
list, as an insertion-ordered association list (Python dicts preserve
insertion order and cannot hold duplicate keys, so first-match update and
delete coincide with dict behaviour). -/
abbrev Accounts := List (String × List String)

/-- `get_all_domains` (lines 37-43): flat list, accounts in insertion order,
domains in per-account insertion order. -/
def get_all_domains (accounts : Accounts) : List String :=
  accounts.flatMap Prod.snd

/-- The loop of `find_domain`: first account whose lowercased domain list
contains `d` (`d` is the normalised needle). -/
def find_domain_go (d : String) : Accounts → Option String
  | [] => none
  | (a, ds) :: rest =>
    if ds.any (fun x => pyLower x == d) then some a else find_domain_go d rest

/-- `find_domain(domain)` (lines 50-63). -/
def find_domain (accounts : Accounts) (domain : String) : Option String :=
  find_domain_go (pyNorm domain) accounts

/-- Python `key in dict`. -/
def hasKey (accounts : Accounts) (k : String) : Bool :=
  accounts.any (fun p => p.1 == k)

/-- Mutate the binding of key `k` (which Python guarantees unique). -/
def updateKey : Accounts → String → (List String → List String) → Accounts
  | [], _, _ => []
  | (a, ds) :: rest, k, f =>
    if a == k then (a, f ds) :: rest else (a, ds) :: updateKey rest k f

/-- `if account not in accounts: accounts[account] = []` followed by
`accounts[account].append(domain)` (lines 106-109). -/
def appendTo (accounts : Accounts) (a d : String) : Accounts :=
  if hasKey accounts a then updateKey accounts a (fun ds => ds ++ [d])
  else accounts ++ [(a, [d])]

/-- Lines 100-112 of `add_domain`: resolve the target account (the first
key when none was supplied) and append the domain. -/
def add_domain_proceed (accounts : Accounts) (d : String)
    (account : Option String) : (Bool × String) × Accounts :=
  -- `if not account`: both None and the empty string are falsy
  let acct : Option String :=
    match account with
    | some a => if a = "" then none else some a
    | none => none
  match acct with
  | none =>
    match accounts with
    | [] => ((false, "Нет аккаунтов. Сначала создайте аккаунт."), accounts)
    | (a0, _) :: _ =>
      ((true, "Домен " ++ d ++ " добавлен к " ++ a0), appendTo accounts a0 d)
  | some a =>
    ((true, "Домен " ++ d ++ " добавлен к " ++ a), appendTo accounts a d)

/-- `add_domain(domain, account=None)` (lines 82-112), returning the
`(success, message)` pair and the resulting store.  Line 97 reads
`existing = self.find_domain(domain); if existing:` — a Python *truthiness*
test, falsy both for `None` and for an owning account named `""`, in which
case the duplicate error is skipped and the add proceeds. -/
def add_domain (accounts : Accounts) (domain : String)
    (account : Option String := none) : (Bool × String) × Accounts :=
  let d := pyNorm domain
  if d = "" ∨ ¬ d.data.contains '.' then
    ((false, "Некорректный формат домена"), accounts)
  else
    match find_domain accounts d with
    | some existing =>
      if existing = "" then add_domain_proceed accounts d account
      else ((false, "Домен " ++ d ++ " уже существует в " ++ existing), accounts)
    | none => add_domain_proceed accounts d account

/-- Drop the first element of `ds` whose lowercase form equals `d`, also
returning the removed original string (`idx = domains_lower.index(domain);
domains.pop(idx)`). -/
def popLower (ds : List String) (d : String) : Option (String × List String) :=
  match ds with
  | [] => none
  | x :: t =>
    if pyLower x == d then some (x, t)
    else (popLower t d).map (fun p => (p.1, x :: p.2))

/-- The loop of `remove_domain`: first account whose lowercased list contains
`d`; yields the account, the removed string and the new store. -/
def remove_domain_go (d : String) : Accounts → Option (String × String × Accounts)
  | [] => none
  | (a, ds) :: rest =>
    match popLower ds d with
    | some (removed, ds2) => some (a, removed, (a, ds2) :: rest)
    | none =>
      (remove_domain_go d rest).map (fun p => (p.1, p.2.1, (a, ds) :: p.2.2))

/-- `remove_domain(domain)` (lines 114-130). -/
def remove_domain (accounts : Accounts) (domain : String) :
    (Bool × String) × Accounts :=
  let d := pyNorm domain
  match remove_domain_go d accounts with
  | some (a, removed, accounts2) =>
    ((true, "Домен " ++ removed ++ " удалён из " ++ a), accounts2)
  | none => ((false, "Домен " ++ d ++ " не найден"), accounts)

/-- Replace the first element of `ds` whose lowercase form equals `o` by `n`
(`domains[idx] = new_domain`). -/
def setLower (ds : List String) (o n : String) : Option (List String) :=
  match ds with
  | [] => none
  | x :: t =>
    if pyLower x == o then some (n :: t)
    else (setLower t o n).map (fun t2 => x :: t2)

/-- The loop of `update_domain`: first account whose lowercased list contains
`o`, with the in-place replacement applied. -/
def update_domain_go (o n : String) : Accounts → Option Accounts
  | [] => none
  | (a, ds) :: rest =>
    match setLower ds o n with
    | some ds2 => some ((a, ds2) :: rest)
    | none => (update_domain_go o n rest).map (fun r => (a, ds) :: r)

/-- Lines 144-156 of `update_domain`: search for the old domain and replace
it in place. -/
def update_domain_proceed (accounts : Accounts) (o n : String) :
    (Bool × String) × Accounts :=
  match update_domain_go o n accounts with
  | some accounts2 => ((true, "Домен " ++ o ++ " изменён на " ++ n), accounts2)
  | none => ((false, "Домен " ++ o ++ " не найден"), accounts)

/-- `update_domain(old_domain, new_domain)` (lines 132-156).  The duplicate
check on `new_domain` precedes the search for `old_domain`, and line 141
reads `if self.find_domain(new_domain):` — a Python *truthiness* test, falsy
both for `None` and for an owning account named `""`, in which case the
duplicate branch is skipped. -/
def update_domain (accounts : Accounts) (old_domain new_domain : String) :
    (Bool × String) × Accounts :=
  let o := pyNorm old_domain
  let n := pyNorm new_domain
  if n = "" ∨ ¬ n.data.contains '.' then
    ((false, "Некорректный формат нового домена"), accounts)
  else
    match find_domain accounts n with
    | some existing =>
      if existing = "" then update_domain_proceed accounts o n
      else ((false, "Домен " ++ n ++ " уже существует"), accounts)
    | none => update_domain_proceed accounts o n

/-- `add_account(account)` (lines 158-171); the key is stripped but not
lowercased. -/
def add_account (accounts : Accounts) (account : String) :
    (Bool × String) × Accounts :=
  let a := pyStrip account
  if hasKey accounts a then ((false, "Аккаунт " ++ a ++ " уже существует"), accounts)
  else ((true, "Аккаунт " ++ a ++ " добавлен"), accounts ++ [(a, [])])

/-- `del accounts[account]`: remove the (unique) binding of the key. -/
def delKey (accounts : Accounts) (k : String) : Accounts :=
  accounts.eraseP (fun p => p.1 == k)

/-- `remove_account(account)` (lines 173-185); the key is used verbatim. -/
def remove_account (accounts : Accounts) (account : String) :
    (Bool × String) × Accounts :=
  match accounts.find? (fun p => p.1 == account) with
  | none => ((false, "Аккаунт " ++ account ++ " не найден"), accounts)
  | some p =>
    ((true, "Аккаунт " ++ account ++ " удалён (" ++ toString p.2.length ++ " доменов)"),
      delKey accounts account)

/-- `get_domains_by_account(account)` (lines 45-48). -/
def get_domains_by_account (accounts : Accounts) (account : String) : List String :=
  match accounts.find? (fun p => p.1 == account) with
  | some p => p.2
  | none => []

/-- `search_domains(query)` (lines 65-80): case-insensitive substring match,
account-then-domain iteration order. -/
def search_domains (accounts : Accounts) (query : String) : List (String × String) :=
  let q := pyNorm query
  accounts.flatMap (fun p =>
    (p.2.filter (fun d2 => decide (q.data <:+: (pyLower d2).data))).map (fun d2 => (d2, p.1)))

/-- `get_accounts_list` (lines 187-189). -/
def get_accounts_list (accounts : Accounts) : List String := accounts.map Prod.fst

/-- `get_domains_count` (lines 191-193). -/
def get_domains_count (accounts : Accounts) : Nat := (get_all_domains accounts).length

/-- `get_accounts_count` (lines 195-197). -/
def get_accounts_count (accounts : Accounts) : Nat := accounts.length

/-- `get_stats` (lines 199-206): accounts count, domains count, per-account
counts. -/
def get_stats (accounts : Accounts) : Nat × Nat × List (String × Nat) :=
  (accounts.length, (accounts.map (fun p => p.2.length)).sum,
    accounts.map (fun p => (p.1, p.2.length)))

/-! ## The backing file (`_load_data`, lines 19-25) -/

/-- The backing JSON file as `_load_data` can observe it: absent, present but
unparsable as JSON, or a parsed store. -/
inductive RawFile where
  | absent
  | corrupt (text : String)
  | stored (accounts : Accounts)

/-- `_load_data`: `json.JSONDecodeError` and `FileNotFoundError` both degrade
to the empty `{"accounts": {}}` store instead of raising. -/
def load_data : RawFile → Accounts
  | .absent => []
  | .corrupt _ => []
  | .stored accounts => accounts

/-- A `DomainManager` mutation as seen from the backing file: reload via
`_load_data`, run the operation, persist the resulting store. -/
def fileMutate (op : Accounts → (Bool × String) × Accounts) (f : RawFile) :
    (Bool × String) × RawFile :=
  let r := op (load_data f)
  (r.1, .stored r.2)

/-- A `DomainManager` read as seen from the backing file. -/
def fileRead {α : Type} (op : Accounts → α) (f : RawFile) : α :=
  op (load_data f)

/-! ## Supporting lemmas -/

theorem get_all_domains_cons (a : String) (ds : List String) (rest : Accounts) :
    get_all_domains ((a, ds) :: rest) = ds ++ get_all_domains rest := by
  simp [get_all_domains]

theorem get_all_domains_append (xs ys : Accounts) :
    get_all_domains (xs ++ ys) = get_all_domains xs ++ get_all_domains ys := by
  simp [get_all_domains]

theorem find_domain_go_eq_none {d : String} {accounts : Accounts} :
    find_domain_go d accounts = none ↔
      ∀ s ∈ get_all_domains accounts, pyLower s ≠ d := by
  induction accounts with
  | nil => simp [find_domain_go, get_all_domains]
  | cons hd rest ih =>
    obtain ⟨a, ds⟩ := hd
    rw [get_all_domains_cons]
    unfold find_domain_go
    by_cases h : (ds.any fun x => pyLower x == d) = true
    · rw [if_pos h]
      simp only [List.any_eq_true, beq_iff_eq] at h
      obtain ⟨x, hx, hlx⟩ := h
      constructor
      · intro hc; cases hc
      · intro hall
        exact absurd hlx (hall x (List.mem_append_left _ hx))
    · rw [if_neg h]
      rw [Bool.not_eq_true, List.any_eq_false] at h
      simp only [beq_iff_eq] at h
      rw [ih]
      constructor
      · intro hrest s hs
        rcases List.mem_append.mp hs with h1 | h2
        · exact h s h1
        · exact hrest s h2
      · intro hall s hs
        exact hall s (List.mem_append_right _ hs)

/-- `find_domain` already normalises its argument, so feeding it a normalised
string changes nothing. -/
theorem find_domain_pyNorm (accounts : Accounts) (x : String) :
    find_domain accounts (pyNorm x) = find_domain accounts x := by
  unfold find_domain
  rw [pyNorm_idem]

theorem find_domain_eq_none {accounts : Accounts} {x : String} :
    find_domain accounts x = none ↔
      ∀ s ∈ get_all_domains accounts, pyLower s ≠ pyNorm x :=
  find_domain_go_eq_none

theorem popLower_eq_none {ds : List String} {d : String} :
    popLower ds d = none ↔ ∀ x ∈ ds, pyLower x ≠ d := by
  induction ds with
  | nil => simp [popLower]
  | cons x t ih =>
    unfold popLower
    by_cases h : pyLower x == d
    · rw [if_pos h]
      simp only [beq_iff_eq] at h
      constructor
      · intro hc; cases hc
      · intro hall
        exact ((hall x (List.mem_cons_self x t)) h).elim
    · rw [if_neg h]
      simp only [beq_iff_eq] at h
      constructor
      · intro hm y hy
        rcases List.mem_cons.mp hy with rfl | hy2
        · exact h
        · exact ih.mp (Option.map_eq_none'.mp hm) y hy2
      · intro hall
        rw [Option.map_eq_none']
        exact ih.mpr (fun y hy => hall y (List.mem_cons_of_mem _ hy))

theorem popLower_eq_some {ds ds2 : List String} {d removed : String}
    (h : popLower ds d = some (removed, ds2)) :
    ∃ pre post, ds = pre ++ removed :: post ∧ ds2 = pre ++ post ∧
      pyLower removed = d ∧ ∀ y ∈ pre, pyLower y ≠ d := by
  induction ds generalizing ds2 removed with
  | nil => cases h
  | cons x t ih =>
    unfold popLower at h
    by_cases hx : pyLower x == d
    · rw [if_pos hx] at h
      simp only [Option.some.injEq, Prod.mk.injEq] at h
      obtain ⟨rfl, rfl⟩ := h
      exact ⟨[], t, rfl, rfl, beq_iff_eq.mp hx, by simp⟩
    · rw [if_neg hx] at h
      simp only [beq_iff_eq] at hx
      cases hp : popLower t d with
      | none => rw [hp] at h; cases h
      | some p =>
        obtain ⟨r2, t2⟩ := p
        rw [hp] at h
        simp only [Option.map_some', Option.some.injEq, Prod.mk.injEq] at h
        obtain ⟨rfl, rfl⟩ := h
        obtain ⟨pre, post, hds, hds2, hlow, hpre⟩ := ih hp
        refine ⟨x :: pre, post, by rw [List.cons_append, ← hds], by rw [List.cons_append, ← hds2], hlow, ?_⟩
        intro y hy
        rcases List.mem_cons.mp hy with rfl | hy
        · exact hx
        · exact hpre y hy

theorem setLower_eq_none {ds : List String} {o n : String} :
    setLower ds o n = none ↔ ∀ x ∈ ds, pyLower x ≠ o := by
  induction ds with
  | nil => simp [setLower]
  | cons x t ih =>
    unfold setLower
    by_cases h : pyLower x == o
    · rw [if_pos h]
      simp only [beq_iff_eq] at h
      constructor
      · intro hc; cases hc
      · intro hall
        exact ((hall x (List.mem_cons_self x t)) h).elim
    · rw [if_neg h]
      simp only [beq_iff_eq] at h
      constructor
      · intro hm y hy
        rcases List.mem_cons.mp hy with rfl | hy2
        · exact h
        · exact ih.mp (Option.map_eq_none'.mp hm) y hy2
      · intro hall
        rw [Option.map_eq_none']
        exact ih.mpr (fun y hy => hall y (List.mem_cons_of_mem _ hy))

theorem setLower_eq_some {ds ds2 : List String} {o n : String}
    (h : setLower ds o n = some ds2) :
    ∃ pre x post, ds = pre ++ x :: post ∧ ds2 = pre ++ n :: post ∧
      pyLower x = o ∧ ∀ y ∈ pre, pyLower y ≠ o := by
  induction ds generalizing ds2 with
  | nil => cases h
  | cons x t ih =>
    unfold setLower at h
    by_cases hx : pyLower x == o
    · rw [if_pos hx] at h
      obtain rfl := (Option.some.inj h).symm
      exact ⟨[], x, t, rfl, rfl, beq_iff_eq.mp hx, by simp⟩
    · rw [if_neg hx] at h
      simp only [beq_iff_eq] at hx
      cases hp : setLower t o n with
      | none => rw [hp] at h; cases h
      | some t2 =>
        rw [hp] at h
        simp only [Option.map_some', Option.some.injEq] at h
        obtain rfl := h.symm
        obtain ⟨pre, x1, post, hds, hds2, hlow, hpre⟩ := ih hp
        refine ⟨x :: pre, x1, post, by rw [List.cons_append, ← hds],
          by rw [List.cons_append, ← hds2], hlow, ?_⟩
        intro y hy
        rcases List.mem_cons.mp hy with rfl | hy
        · exact hx
        · exact hpre y hy

theorem update_domain_go_eq_none {o n : String} {accounts : Accounts} :
    update_domain_go o n accounts = none ↔
      ∀ s ∈ get_all_domains accounts, pyLower s ≠ o := by
  induction accounts with
  | nil => simp [update_domain_go, get_all_domains]
  | cons hd rest ih =>
    obtain ⟨a, ds⟩ := hd
    rw [get_all_domains_cons]
    unfold update_domain_go
    cases hs : setLower ds o n with
    | some ds2 =>
      obtain ⟨pre, x, post, hds, _, hlow, _⟩ := setLower_eq_some hs
      constructor
      · intro hc; cases hc
      · intro hall
        have hx : x ∈ ds ++ get_all_domains rest := by
          rw [hds]; exact List.mem_append_left _ (by simp)
        exact ((hall x hx) hlow).elim
    | none =>
      have hds := setLower_eq_none.mp hs
      simp only [Option.map_eq_none', ih]
      constructor
      · intro hrest s hsm
        rcases List.mem_append.mp hsm with h1 | h2
        · exact hds s h1
        · exact hrest s h2
      · intro hall s hsm
        exact hall s (List.mem_append_right _ hsm)

theorem update_domain_go_eq_some {o n : String} {accounts accounts2 : Accounts}
    (h : update_domain_go o n accounts = some accounts2) :
    ∃ pre x post, get_all_domains accounts = pre ++ x :: post ∧
      get_all_domains accounts2 = pre ++ n :: post ∧
      pyLower x = o ∧ ∀ y ∈ pre, pyLower y ≠ o := by
  induction accounts generalizing accounts2 with
  | nil => cases h
  | cons hd rest ih =>
    obtain ⟨a, ds⟩ := hd
    unfold update_domain_go at h
    cases hs : setLower ds o n with
    | some ds2 =>
      rw [hs] at h
      obtain rfl := (Option.some.inj h).symm
      obtain ⟨pre, x, post, hds, hds2, hlow, hpre⟩ := setLower_eq_some hs
      refine ⟨pre, x, post ++ get_all_domains rest, ?_, ?_, hlow, hpre⟩
      · rw [get_all_domains_cons, hds]
        simp
      · rw [get_all_domains_cons, hds2]
        simp
    | none =>
      rw [hs] at h
      cases hr : update_domain_go o n rest with
      | none => rw [hr] at h; cases h
      | some rest2 =>
        rw [hr] at h
        simp only [Option.map_some', Option.some.injEq] at h
        obtain rfl := h.symm
        obtain ⟨pre, x, post, hfr, hfr2, hlow, hpre⟩ := ih hr
        have hds := setLower_eq_none.mp hs
        refine ⟨ds ++ pre, x, post, ?_, ?_, hlow, ?_⟩
        · rw [get_all_domains_cons, hfr]
          simp
        · rw [get_all_domains_cons, hfr2]
          simp
        · intro y hy
          rcases List.mem_append.mp hy with h1 | h2
          · exact hds y h1
          · exact hpre y h2

theorem remove_domain_go_eq_none {d : String} {accounts : Accounts} :
    remove_domain_go d accounts = none ↔
      ∀ s ∈ get_all_domains accounts, pyLower s ≠ d := by
  induction accounts with
  | nil => simp [remove_domain_go, get_all_domains]
  | cons hd rest ih =>
    obtain ⟨a, ds⟩ := hd
    rw [get_all_domains_cons]
    unfold remove_domain_go
    cases hs : popLower ds d with
    | some p =>
      obtain ⟨removed, ds2⟩ := p
      obtain ⟨pre, post, hds, _, hlow, _⟩ := popLower_eq_some hs
      constructor
      · intro hc; cases hc
      · intro hall
        have hx : removed ∈ ds ++ get_all_domains rest := by
          rw [hds]; exact List.mem_append_left _ (by simp)
        exact ((hall removed hx) hlow).elim
    | none =>
      have hds := popLower_eq_none.mp hs
      simp only [Option.map_eq_none', ih]
      constructor
      · intro hrest s hsm
        rcases List.mem_append.mp hsm with h1 | h2
        · exact hds s h1
        · exact hrest s h2
      · intro hall s hsm
        exact hall s (List.mem_append_right _ hsm)

theorem remove_domain_go_eq_some {d : String} {accounts : Accounts}
    {acct removed : String} {accounts2 : Accounts}
    (h : remove_domain_go d accounts = some (acct, removed, accounts2)) :
    ∃ pre post, get_all_domains accounts = pre ++ removed :: post ∧
      get_all_domains accounts2 = pre ++ post ∧ pyLower removed = d := by
  induction accounts generalizing accounts2 acct removed with
  | nil => cases h
  | cons hd rest ih =>
    obtain ⟨a, ds⟩ := hd
    unfold remove_domain_go at h
    cases hs : popLower ds d with
    | some p =>
      obtain ⟨rem0, ds2⟩ := p
      rw [hs] at h
      simp only [Option.some.injEq, Prod.mk.injEq] at h
      obtain ⟨rfl, rfl, rfl⟩ := h
      obtain ⟨pre, post, hds, hds2, hlow, _⟩ := popLower_eq_some hs
      refine ⟨pre, post ++ get_all_domains rest, ?_, ?_, hlow⟩
      · rw [get_all_domains_cons, hds]
        simp
      · rw [get_all_domains_cons, hds2]
        simp
    | none =>
      rw [hs] at h
      cases hr : remove_domain_go d rest with
      | none => rw [hr] at h; cases h
      | some p =>
        obtain ⟨a2, rem2, rest2⟩ := p
        rw [hr] at h
        simp only [Option.map_some', Option.some.injEq, Prod.mk.injEq] at h
        obtain ⟨rfl, rfl, rfl⟩ := h
        obtain ⟨pre, post, hfr, hfr2, hlow⟩ := ih hr
        refine ⟨ds ++ pre, post, ?_, ?_, hlow⟩
        · rw [get_all_domains_cons, hfr]
          simp
        · rw [get_all_domains_cons, hfr2]
          simp

theorem updateKey_flatten (accounts : Accounts) (a nd : String)
    (hk : hasKey accounts a = true) :
    ∃ A B, get_all_domains accounts = A ++ B ∧
      get_all_domains (updateKey accounts a (fun ds => ds ++ [nd])) = A ++ nd :: B := by
  induction accounts with
  | nil => simp [hasKey] at hk
  | cons hd rest ih =>
    obtain ⟨a0, ds⟩ := hd
    unfold updateKey
    by_cases h0 : a0 == a
    · rw [if_pos h0]
      refine ⟨ds, get_all_domains rest, get_all_domains_cons .., ?_⟩
      rw [get_all_domains_cons]
      simp
    · rw [if_neg h0]
      have hk2 : hasKey rest a = true := by
        unfold hasKey at hk
        rw [List.any_cons] at hk
        rcases Bool.or_eq_true_iff.mp hk with h1 | h2
        · exact absurd h1 h0
        · exact h2
      obtain ⟨A, B, hAB, hAB2⟩ := ih hk2
      refine ⟨ds ++ A, B, ?_, ?_⟩
      · rw [get_all_domains_cons, hAB]
        simp
      · rw [get_all_domains_cons, hAB2]
        simp

/-- Appending a domain to an account splits the flattened list in two: the
new domain lands at the end of that account's block. -/
theorem appendTo_flatten (accounts : Accounts) (a nd : String) :
    ∃ A B, get_all_domains accounts = A ++ B ∧
      get_all_domains (appendTo accounts a nd) = A ++ nd :: B := by
  unfold appendTo
  by_cases hk : hasKey accounts a
  · rw [if_pos hk]
    exact updateKey_flatten accounts a nd hk
  · rw [if_neg hk]
    refine ⟨get_all_domains accounts, [], by simp, ?_⟩
    rw [get_all_domains_append]
    simp [get_all_domains]

/-- Inserting an element that is case-insensitively fresh preserves pairwise
case-insensitive distinctness. -/
theorem pairwise_insert_middle {A B : List String} {x : String}
    (hp : (A ++ B).Pairwise (fun u v => pyLower u ≠ pyLower v))
    (hx : ∀ s ∈ A ++ B, pyLower s ≠ pyLower x) :
    (A ++ x :: B).Pairwise (fun u v => pyLower u ≠ pyLower v) := by
  rw [List.pairwise_append] at hp
  obtain ⟨hA, hB, hAB⟩ := hp
  rw [List.pairwise_append]
  refine ⟨hA, ?_, ?_⟩
  · rw [List.pairwise_cons]
    refine ⟨?_, hB⟩
    intro b hb
    exact fun he => (hx b (List.mem_append_right _ hb)) he.symm
  · intro u hu v hv
    rcases List.mem_cons.mp hv with rfl | hv2
    · exact hx u (List.mem_append_left _ hu)
    · exact hAB u hu v hv2

/-- The repository invariant stated by the spec: all stored domains are
pairwise distinct case-insensitively, and each is stored in lowercase,
trimmed form. -/
def RepoInv (accounts : Accounts) : Prop :=
  (get_all_domains accounts).Pairwise (fun u v => pyLower u ≠ pyLower v) ∧
  ∀ s ∈ get_all_domains accounts, pyLower s = s ∧ pyStrip s = s

/-- No account is named the empty string.  An empty-named owner is falsy in
the `if existing:` / `if self.find_domain(...):` truthiness tests of
`add_domain` and `update_domain`, which then skip their duplicate checks. -/
def NoEmptyKey (accounts : Accounts) : Prop :=
  ∀ p ∈ accounts, p.1 ≠ ""

/-- The account returned by `find_domain` is a key of the store. -/
theorem find_domain_go_key_mem {d acc : String} {accounts : Accounts}
    (h : find_domain_go d accounts = some acc) : ∃ ds, (acc, ds) ∈ accounts := by
  induction accounts with
  | nil => cases h
  | cons hd rest ih =>
    obtain ⟨a, ds⟩ := hd
    unfold find_domain_go at h
    by_cases hc : (ds.any fun x => pyLower x == d) = true
    · rw [if_pos hc] at h
      obtain rfl := Option.some.inj h
      exact ⟨ds, List.mem_cons_self _ _⟩
    · rw [if_neg hc] at h
      obtain ⟨ds2, hmem⟩ := ih h
      exact ⟨ds2, List.mem_cons_of_mem _ hmem⟩

theorem find_domain_key_ne_empty {accounts : Accounts} {x acc : String}
    (hkeys : NoEmptyKey accounts) (h : find_domain accounts x = some acc) :
    acc ≠ "" := by
  obtain ⟨ds, hmem⟩ := find_domain_go_key_mem h
  exact hkeys (acc, ds) hmem

theorem noEmptyKey_updateKey {accounts : Accounts} {k : String}
    {f : List String → List String} (h : NoEmptyKey accounts) :
    NoEmptyKey (updateKey accounts k f) := by
  induction accounts with
  | nil => exact h
  | cons hd rest ih =>
    obtain ⟨a, ds⟩ := hd
    unfold updateKey
    by_cases hc : (a == k) = true
    · rw [if_pos hc]
      intro p hp
      rcases List.mem_cons.mp hp with rfl | hp2
      · exact h (a, ds) (List.mem_cons_self _ _)
      · exact h p (List.mem_cons_of_mem _ hp2)
    · rw [if_neg hc]
      intro p hp
      rcases List.mem_cons.mp hp with rfl | hp2
      · exact h (a, ds) (List.mem_cons_self _ _)
      · exact ih (fun q hq => h q (List.mem_cons_of_mem _ hq)) p hp2

theorem noEmptyKey_appendTo {accounts : Accounts} {a d : String}
    (h : NoEmptyKey accounts) (ha : a ≠ "") :
    NoEmptyKey (appendTo accounts a d) := by
  unfold appendTo
  by_cases hk : hasKey accounts a = true
  · rw [if_pos hk]
    exact noEmptyKey_updateKey h
  · rw [if_neg hk]
    intro p hp
    rcases List.mem_append.mp hp with h1 | h2
    · exact h p h1
    · rw [List.mem_singleton.mp h2]
      exact ha

theorem noEmptyKey_add_domain_proceed (accounts : Accounts) (d : String)
    (account : Option String) (h : NoEmptyKey accounts) :
    NoEmptyKey (add_domain_proceed accounts d account).2 := by
  unfold add_domain_proceed
  cases account with
  | none =>
    dsimp only
    cases accounts with
    | nil => exact h
    | cons hd rest =>
      obtain ⟨a0, ds0⟩ := hd
      exact noEmptyKey_appendTo h (h (a0, ds0) (List.mem_cons_self _ _))
  | some a =>
    dsimp only
    by_cases ha : a = ""
    · rw [if_pos ha]
      dsimp only
      cases accounts with
      | nil => exact h
      | cons hd rest =>
        obtain ⟨a0, ds0⟩ := hd
        exact noEmptyKey_appendTo h (h (a0, ds0) (List.mem_cons_self _ _))
    · rw [if_neg ha]
      exact noEmptyKey_appendTo h ha

theorem noEmptyKey_add_domain (accounts : Accounts) (domain : String)
    (account : Option String) (h : NoEmptyKey accounts) :
    NoEmptyKey (add_domain accounts domain account).2 := by
  unfold add_domain
  by_cases hval : pyNorm domain = "" ∨ ¬ (pyNorm domain).data.contains '.' = true
  · rw [if_pos hval]
    exact h
  · rw [if_neg hval]
    cases hf : find_domain accounts (pyNorm domain) with
    | some e =>
      dsimp only
      by_cases he : e = ""
      · rw [if_pos he]
        exact noEmptyKey_add_domain_proceed accounts _ account h
      · rw [if_neg he]
        exact h
    | none => exact noEmptyKey_add_domain_proceed accounts _ account h

theorem noEmptyKey_update_domain_go {o n : String} {accounts accounts2 : Accounts}
    (h : update_domain_go o n accounts = some accounts2)
    (hk : NoEmptyKey accounts) : NoEmptyKey accounts2 := by
  induction accounts generalizing accounts2 with
  | nil => cases h
  | cons hd rest ih =>
    obtain ⟨a, ds⟩ := hd
    unfold update_domain_go at h
    cases hs : setLower ds o n with
    | some ds2 =>
      rw [hs] at h
      obtain rfl := (Option.some.inj h).symm
      intro p hp
      rcases List.mem_cons.mp hp with rfl | hp2
      · exact hk (a, ds) (List.mem_cons_self _ _)
      · exact hk p (List.mem_cons_of_mem _ hp2)
    | none =>
      rw [hs] at h
      cases hr : update_domain_go o n rest with
      | none => rw [hr] at h; cases h
      | some rest2 =>
        rw [hr] at h
        simp only [Option.map_some', Option.some.injEq] at h
        obtain rfl := h.symm
        intro p hp
        rcases List.mem_cons.mp hp with rfl | hp2
        · exact hk (a, ds) (List.mem_cons_self _ _)
        · exact ih hr (fun q hq => hk q (List.mem_cons_of_mem _ hq)) p hp2

theorem noEmptyKey_update_domain (accounts : Accounts) (o n : String)
    (h : NoEmptyKey accounts) : NoEmptyKey (update_domain accounts o n).2 := by
  have hproceed : NoEmptyKey (update_domain_proceed accounts (pyNorm o) (pyNorm n)).2 := by
    unfold update_domain_proceed
    cases hg : update_domain_go (pyNorm o) (pyNorm n) accounts with
    | none => exact h
    | some accounts2 => exact noEmptyKey_update_domain_go hg h
  unfold update_domain
  by_cases hval : pyNorm n = "" ∨ ¬ (pyNorm n).data.contains '.' = true
  · rw [if_pos hval]
    exact h
  · rw [if_neg hval]
    cases hf : find_domain accounts (pyNorm n) with
    | some e =>
      dsimp only
      by_cases he : e = ""
      · rw [if_pos he]
        exact hproceed
      · rw [if_neg he]
        exact h
    | none => exact hproceed

theorem noEmptyKey_remove_domain_go {d : String} {accounts : Accounts}
    {acct rem : String} {accounts2 : Accounts}
    (h : remove_domain_go d accounts = some (acct, rem, accounts2))
    (hk : NoEmptyKey accounts) : NoEmptyKey accounts2 := by
  induction accounts generalizing acct rem accounts2 with
  | nil => cases h
  | cons hd rest ih =>
    obtain ⟨a, ds⟩ := hd
    unfold remove_domain_go at h
    cases hs : popLower ds d with
    | some p =>
      obtain ⟨rem0, ds2⟩ := p
      rw [hs] at h
      simp only [Option.some.injEq, Prod.mk.injEq] at h
      obtain ⟨rfl, rfl, rfl⟩ := h
      intro p hp
      rcases List.mem_cons.mp hp with rfl | hp2
      · exact hk (a, ds) (List.mem_cons_self _ _)
      · exact hk p (List.mem_cons_of_mem _ hp2)
    | none =>
      rw [hs] at h
      cases hr : remove_domain_go d rest with
      | none => rw [hr] at h; cases h
      | some q =>
        obtain ⟨a2, rem2, rest2⟩ := q
        rw [hr] at h
        simp only [Option.map_some', Option.some.injEq, Prod.mk.injEq] at h
        obtain ⟨rfl, rfl, rfl⟩ := h
        intro p hp
        rcases List.mem_cons.mp hp with rfl | hp2
        · exact hk (a, ds) (List.mem_cons_self _ _)
        · exact ih hr (fun q hq => hk q (List.mem_cons_of_mem _ hq)) p hp2

theorem noEmptyKey_remove_domain (accounts : Accounts) (d : String)
    (h : NoEmptyKey accounts) : NoEmptyKey (remove_domain accounts d).2 := by
  unfold remove_domain
  dsimp only
  cases hg : remove_domain_go (pyNorm d) accounts with
  | none => exact h
  | some p =>
    obtain ⟨acct, rem, accounts2⟩ := p
    exact noEmptyKey_remove_domain_go hg h

theorem noEmptyKey_add_account (accounts : Accounts) (a : String)
    (h : NoEmptyKey accounts) (ha : pyStrip a ≠ "") :
    NoEmptyKey (add_account accounts a).2 := by
  unfold add_account
  by_cases hk : hasKey accounts (pyStrip a) = true
  · rw [if_pos hk]
    exact h
  · rw [if_neg hk]
    intro p hp
    rcases List.mem_append.mp hp with h1 | h2
    · exact h p h1
    · rw [List.mem_singleton.mp h2]
      exact ha

theorem noEmptyKey_remove_account (accounts : Accounts) (a : String)
    (h : NoEmptyKey accounts) : NoEmptyKey (remove_account accounts a).2 := by
  unfold remove_account
  cases hf : accounts.find? (fun p => p.1 == a) with
  | none => exact h
  | some p =>
    dsimp only
    exact fun q hq => h q ((List.eraseP_sublist accounts).subset hq)

/-- Every branch of `check_domain_async` returns the queried domain name. -/
theorem check_domain_field (oracle : String → LookupOutcome) (now : Int)
    (domain : String) (w : Int) :
    (check_domain_async oracle now domain w).domain = domain := by
  unfold check_domain_async
  cases oracle domain
  all_goals dsimp only
  all_goals repeat' split
  all_goals rfl

/-- Case analysis of `check_domain_async`: either the lookup succeeded, with
the parsed date, floored day difference and threshold comparison filled in,
or it failed, with an error set, the date fields empty and a registrar that
is either absent or copied from a status-200 response. -/
theorem check_cases (oracle : String → LookupOutcome) (now : Int)
    (domain : String) (w : Int) :
    (∃ date reg, check_domain_async oracle now domain w =
      ⟨domain, some date, some (daysLeftOf date now), reg,
        decide (daysLeftOf date now < w), none⟩) ∨
    ((check_domain_async oracle now domain w).expiry_date = none ∧
     (check_domain_async oracle now domain w).days_left = none ∧
     (check_domain_async oracle now domain w).error.isSome = true ∧
     ((check_domain_async oracle now domain w).registrar = none ∨
       ∃ paid, oracle domain = LookupOutcome.http 200 paid
         (check_domain_async oracle now domain w).registrar)) := by
  unfold check_domain_async
  cases ho : oracle domain with
  | timeout => right; exact ⟨rfl, rfl, rfl, Or.inl rfl⟩
  | failure msg => right; exact ⟨rfl, rfl, rfl, Or.inl rfl⟩
  | http status paid registrar =>
    dsimp only
    by_cases hs : status = 200
    · subst hs
      rw [if_neg (not_not_intro rfl)]
      cases paid with
      | none =>
        dsimp only
        right; exact ⟨rfl, rfl, rfl, Or.inr ⟨none, rfl⟩⟩
      | some pv =>
        cases pv with
        | pstr s =>
          dsimp only
          by_cases he : s = ""
          · rw [if_pos he]
            right; exact ⟨rfl, rfl, rfl, Or.inr ⟨some (PaidValue.pstr s), rfl⟩⟩
          · rw [if_neg he]
            cases strptimeDMY s with
            | some date => left; exact ⟨date, registrar, rfl⟩
            | none =>
              dsimp only
              cases strptimeYMD s with
              | some date => left; exact ⟨date, registrar, rfl⟩
              | none =>
                dsimp only
                right; exact ⟨rfl, rfl, rfl, Or.inr ⟨some (PaidValue.pstr s), rfl⟩⟩
        | plist l =>
          dsimp only
          by_cases he : l.isEmpty = true
          · rw [if_pos he]
            right; exact ⟨rfl, rfl, rfl, Or.inr ⟨some (PaidValue.plist l), rfl⟩⟩
          · rw [if_neg he]
            right; exact ⟨rfl, rfl, rfl, Or.inl rfl⟩
    · rw [if_pos hs]
      right; exact ⟨rfl, rfl, rfl, Or.inl rfl⟩

/-- In a keyed list without duplicate keys, `find?` on a present key returns
exactly that entry. -/
theorem find_key_unique {β : Type} {l : List (Nat × β)}
    (hnodup : (l.map Prod.fst).Nodup) {i : Nat} {v : β} (hmem : (i, v) ∈ l) :
    l.find? (fun p => p.1 == i) = some (i, v) := by
  induction l with
  | nil => cases hmem
  | cons hd t ih =>
    rw [List.map_cons, List.nodup_cons] at hnodup
    obtain ⟨hni, hnt⟩ := hnodup
    by_cases hh : hd.1 = i
    · rw [List.find?_cons_of_pos _ (by simpa using hh)]
      rcases List.mem_cons.mp hmem with rfl | hm2
      · rfl
      · exact absurd (hh ▸ List.mem_map_of_mem Prod.fst hm2) hni
    · rw [List.find?_cons_of_neg _ (by simpa using hh)]
      rcases List.mem_cons.mp hmem with rfl | hm2
      · exact absurd rfl hh
      · exact ih hnt hm2

theorem filterMap_eq_map_of_forall_some {α β : Type} {f : α → Option β}
    {g : α → β} {l : List α} (h : ∀ a ∈ l, f a = some (g a)) :
    l.filterMap f = l.map g := by
  induction l with
  | nil => rfl
  | cons x t ih =>
    rw [List.filterMap_cons, h x (List.mem_cons_self x t), List.map_cons,
      ih (fun a ha => h a (List.mem_cons_of_mem _ ha))]

theorem map_getD_range {α β : Type} (l : List α) (d0 : α) (f : α → β) :
    (List.range l.length).map (fun i => f (l.getD i d0)) = l.map f := by
  induction l with
  | nil => rfl
  | cons x t ih =>
    rw [List.length_cons, List.range_succ_eq_map, List.map_cons, List.map_map]
    congr 1

theorem batchTasks_keys (oracle : String → LookupOutcome) (now : Int)
    (domains : List String) (w : Int) :
    (batchTasks oracle now domains w).map Prod.fst = List.range domains.length := by
  unfold batchTasks
  rw [List.map_map]
  have hf : (Prod.fst ∘ fun p : Nat × String =>
      (p.1, check_domain_async oracle now p.2 w)) = Prod.fst := rfl
  rw [hf, List.enum_map_fst]

theorem batchTasks_mem (oracle : String → LookupOutcome) (now : Int)
    (domains : List String) (w : Int) {i : Nat} (hi : i < domains.length) :
    (i, check_domain_async oracle now (domains.getD i "") w) ∈
      batchTasks oracle now domains w := by
  unfold batchTasks
  have hget : domains.get? i = some (domains.getD i "") := by
    rw [List.getD_eq_getElem?_getD, List.get?_eq_getElem?]
    cases hg : domains[i]? with
    | none => rw [List.getElem?_eq_none_iff] at hg; omega
    | some x => rfl
  have henum : (i, domains.getD i "") ∈ domains.enum :=
    List.mem_enum_iff_get?.mpr hget
  exact List.mem_map_of_mem _ henum

/-! ## Claims -/

/-- C1: for every list of domains and every warningDays, the batch runner
returns exactly one `DomainInfo` per input domain, in input order, whatever
order the concurrent lookups completed in (`completed` is any permutation of
the finished tasks), and every domain yields a result even when its lookup
failed — no failure aborts the batch. -/
theorem claim_C1_batch_order (oracle : String → LookupOutcome) (now : Int)
    (domains : List String) (w : Int) (completed : List (Nat × DomainInfo))
    (hperm : completed.Perm (batchTasks oracle now domains w)) :
    check_domains_batch domains completed =
      domains.map (fun d => check_domain_async oracle now d w) ∧
    (check_domains_batch domains completed).length = domains.length ∧
    ∀ i : Nat, ((check_domains_batch domains completed)[i]?).map DomainInfo.domain
      = domains[i]? := by
  have hkeys : ((batchTasks oracle now domains w).map Prod.fst).Nodup := by
    rw [batchTasks_keys]; exact List.nodup_range _
  have hkeysc : (completed.map Prod.fst).Nodup :=
    ((hperm.map Prod.fst).symm).nodup hkeys
  have hmain : check_domains_batch domains completed =
      domains.map (fun d => check_domain_async oracle now d w) := by
    unfold check_domains_batch gather
    have hf : ∀ i ∈ List.range domains.length,
        (completed.find? (fun p => p.1 == i)).map Prod.snd =
          some ((fun j => check_domain_async oracle now (domains.getD j "") w) i) := by
      intro i hi
      rw [List.mem_range] at hi
      have hmemc : (i, check_domain_async oracle now (domains.getD i "") w) ∈ completed :=
        (hperm.mem_iff).mpr (batchTasks_mem oracle now domains w hi)
      rw [find_key_unique hkeysc hmemc]
      rfl
    rw [filterMap_eq_map_of_forall_some hf]
    exact map_getD_range domains "" (fun d => check_domain_async oracle now d w)
  refine ⟨hmain, ?_, ?_⟩
  · rw [hmain, List.length_map]
  · intro i
    rw [hmain, List.getElem?_map]
    cases hd : domains[i]? with
    | none => rfl
    | some d =>
      simp only [Option.map_some']
      rw [check_domain_field]

theorem claim_C1_batch_order_witness :
    check_domains_batch ["a.com", "b.com"]
        [(1, check_domain_async (fun _ => LookupOutcome.timeout) 0 "b.com" 31),
         (0, check_domain_async (fun _ => LookupOutcome.timeout) 0 "a.com" 31)] =
      ["a.com", "b.com"].map (fun d => check_domain_async (fun _ => LookupOutcome.timeout) 0 d 31) ∧
    (check_domains_batch ["a.com", "b.com"]
        [(1, check_domain_async (fun _ => LookupOutcome.timeout) 0 "b.com" 31),
         (0, check_domain_async (fun _ => LookupOutcome.timeout) 0 "a.com" 31)]).length = 2 ∧
    ∀ i : Nat, ((check_domains_batch ["a.com", "b.com"]
        [(1, check_domain_async (fun _ => LookupOutcome.timeout) 0 "b.com" 31),
         (0, check_domain_async (fun _ => LookupOutcome.timeout) 0 "a.com" 31)])[i]?).map
      DomainInfo.domain = ["a.com", "b.com"][i]? :=
  claim_C1_batch_order (fun _ => LookupOutcome.timeout) 0 ["a.com", "b.com"] 31 _ (by decide)

/-- C2: at `warningDays = 31`, every check result carrying a parsed expiry
date has its day count and flag related by `isExpiringSoon = daysLeft < 31`,
and the display tier is red if expiring soon, else yellow when
`daysLeft ≤ 60`, else green; in particular 30 ↦ red, 45 ↦ yellow,
90 ↦ green and -5 (already expired) ↦ red via the first rule. -/
theorem claim_C2_display_tiers (oracle : String → LookupOutcome) (now : Int)
    (domain : String)
    (h : ((check_domain_async oracle now domain 31).expiry_date).isSome = true) :
    ∃ n : Int,
      (check_domain_async oracle now domain 31).days_left = some n ∧
      (check_domain_async oracle now domain 31).is_expiring_soon = decide (n < 31) ∧
      tierEmoji (check_domain_async oracle now domain 31) =
        (if n < 31 then "🔴" else if n ≤ 60 then "🟡" else "🟢") ∧
      (n = 30 → tierEmoji (check_domain_async oracle now domain 31) = "🔴") ∧
      (n = 45 → tierEmoji (check_domain_async oracle now domain 31) = "🟡") ∧
      (n = 90 → tierEmoji (check_domain_async oracle now domain 31) = "🟢") ∧
      (n = -5 → tierEmoji (check_domain_async oracle now domain 31) = "🔴") := by
  rcases check_cases oracle now domain 31 with ⟨date, reg, heq⟩ | ⟨h1, _, _, _⟩
  · refine ⟨daysLeftOf date now, ?_, ?_, ?_, ?_, ?_, ?_, ?_⟩
    · rw [heq]
    · rw [heq]
    · rw [heq]
      simp only [tierEmoji, Option.getD_some, decide_eq_true_eq]
    · intro hn
      rw [heq]
      simp only [tierEmoji, Option.getD_some, decide_eq_true_eq, hn]
      norm_num
    · intro hn
      rw [heq]
      simp only [tierEmoji, Option.getD_some, decide_eq_true_eq, hn]
      norm_num
    · intro hn
      rw [heq]
      simp only [tierEmoji, Option.getD_some, decide_eq_true_eq, hn]
      norm_num
    · intro hn
      rw [heq]
      simp only [tierEmoji, Option.getD_some, decide_eq_true_eq, hn]
      norm_num
  · rw [h1] at h
    cases h

theorem claim_C2_display_tiers_witness :
    ∃ n : Int,
      (check_domain_async (fun _ => LookupOutcome.http 200
          (some (PaidValue.pstr "01.01.2030")) none) 0 "x.com" 31).days_left = some n ∧
      (check_domain_async (fun _ => LookupOutcome.http 200
          (some (PaidValue.pstr "01.01.2030")) none) 0 "x.com" 31).is_expiring_soon = decide (n < 31) ∧
      tierEmoji (check_domain_async (fun _ => LookupOutcome.http 200
          (some (PaidValue.pstr "01.01.2030")) none) 0 "x.com" 31) =
        (if n < 31 then "🔴" else if n ≤ 60 then "🟡" else "🟢") ∧
      (n = 30 → tierEmoji (check_domain_async (fun _ => LookupOutcome.http 200
          (some (PaidValue.pstr "01.01.2030")) none) 0 "x.com" 31) = "🔴") ∧
      (n = 45 → tierEmoji (check_domain_async (fun _ => LookupOutcome.http 200
          (some (PaidValue.pstr "01.01.2030")) none) 0 "x.com" 31) = "🟡") ∧
      (n = 90 → tierEmoji (check_domain_async (fun _ => LookupOutcome.http 200
          (some (PaidValue.pstr "01.01.2030")) none) 0 "x.com" 31) = "🟢") ∧
      (n = -5 → tierEmoji (check_domain_async (fun _ => LookupOutcome.http 200
          (some (PaidValue.pstr "01.01.2030")) none) 0 "x.com" 31) = "🔴") :=
  claim_C2_display_tiers (fun _ => LookupOutcome.http 200
    (some (PaidValue.pstr "01.01.2030")) none) 0 "x.com" (by decide)

/-- C6 (amended): any lookup or parse failure returns normally with `error`
set and `expiry_date`/`days_left` empty; the `registrar` field, however, is
not always empty — for the missing-expiry and unparsable-date failures it
carries the registrar of the 200 response (and only the generic exception
message is truncated, to 50 characters; the unparsable-date message embeds
the full unparsed text). -/
theorem claim_C6_failure_fields (oracle : String → LookupOutcome) (now : Int)
    (domain : String) (w : Int) (e : String)
    (h : (check_domain_async oracle now domain w).error = some e) :
    (check_domain_async oracle now domain w).expiry_date = none ∧
    (check_domain_async oracle now domain w).days_left = none ∧
    ((check_domain_async oracle now domain w).registrar = none ∨
      ∃ paid, oracle domain = LookupOutcome.http 200 paid
        (check_domain_async oracle now domain w).registrar) := by
  rcases check_cases oracle now domain w with ⟨date, reg, heq⟩ | ⟨h1, h2, _, h4⟩
  · rw [heq] at h
    cases h
  · exact ⟨h1, h2, h4⟩

theorem claim_C6_failure_fields_witness :
    (check_domain_async (fun _ => LookupOutcome.timeout) 0 "x.com" 31).expiry_date = none ∧
    (check_domain_async (fun _ => LookupOutcome.timeout) 0 "x.com" 31).days_left = none ∧
    ((check_domain_async (fun _ => LookupOutcome.timeout) 0 "x.com" 31).registrar = none ∨
      ∃ paid, (fun _ : String => LookupOutcome.timeout) "x.com" = LookupOutcome.http 200 paid
        (check_domain_async (fun _ => LookupOutcome.timeout) 0 "x.com" 31).registrar) :=
  claim_C6_failure_fields (fun _ => LookupOutcome.timeout) 0 "x.com" 31 "Таймаут" rfl

/-- C6 (counterexample): a 200 response with a registrar but no expiry field
produces an error result whose `registrar` is *not* empty, and a 200
response with a registrar and a long unparsable date produces an error text
longer than the 50-character truncation bound — refuting "all optional
fields empty" and "truncated to a bounded length". -/
theorem claim_C6_counterexample :
    ((check_domain_async (fun _ => LookupOutcome.http 200 none (some "REG")) 0
        "x.com" 31).error).isSome = true ∧
    (check_domain_async (fun _ => LookupOutcome.http 200 none (some "REG")) 0
        "x.com" 31).registrar = some "REG" ∧
    ((check_domain_async (fun _ => LookupOutcome.http 200
        (some (PaidValue.pstr "00000000001111111111222222222233333333334444444444555"))
        (some "REG")) 0 "x.com" 31).error =
      some ("Формат даты: " ++ "00000000001111111111222222222233333333334444444444555")) ∧
    ("Формат даты: " ++ "00000000001111111111222222222233333333334444444444555").length = 66 := by
  refine ⟨rfl, rfl, by decide, by decide⟩

/-- C8 (amended): when the `"paid"` field arrives as a non-empty list, the
checker does *not* use its first element: `strptime` raises a `TypeError`,
the generic handler converts it to an error `DomainInfo` with no expiry
date, no day count and no registrar. -/
theorem claim_C8_list_paid (oracle : String → LookupOutcome) (now : Int)
    (domain : String) (w : Int) (l : List String) (reg : Option String)
    (h : oracle domain = LookupOutcome.http 200 (some (PaidValue.plist l)) reg)
    (hne : l ≠ []) :
    check_domain_async oracle now domain w =
      ⟨domain, none, none, none, false, some (pyTruncate strptimeTypeError 50)⟩ := by
  unfold check_domain_async
  rw [h]
  dsimp only
  rw [if_neg (not_not_intro rfl)]
  rw [if_neg (by simpa [List.isEmpty_iff] using hne)]

theorem claim_C8_list_paid_witness :
    check_domain_async
        (fun _ => LookupOutcome.http 200 (some (PaidValue.plist ["x"])) none) 0 "a.com" 31 =
      ⟨"a.com", none, none, none, false, some (pyTruncate strptimeTypeError 50)⟩ :=
  claim_C8_list_paid _ 0 "a.com" 31 ["x"] none rfl (by decide)

/-- C8 (counterexample): a list whose first element is a perfectly parsable
date still yields an error result with no parsed expiry — the first element
is not used. -/
theorem claim_C8_counterexample :
    (check_domain_async (fun _ => LookupOutcome.http 200
        (some (PaidValue.plist ["01.01.2030", "02.02.2031"])) (some "REG")) 0
      "x.com" 31).expiry_date = none ∧
    (check_domain_async (fun _ => LookupOutcome.http 200
        (some (PaidValue.plist ["01.01.2030", "02.02.2031"])) (some "REG")) 0
      "x.com" 31).days_left = none ∧
    (check_domain_async (fun _ => LookupOutcome.http 200
        (some (PaidValue.plist ["01.01.2030", "02.02.2031"])) (some "REG")) 0
      "x.com" 31).error = some "strptime() argument 1 must be str, not list" ∧
    strptimeDMY "01.01.2030" = some (2030, 1, 1) := by
  refine ⟨rfl, rfl, by decide, by decide⟩

/-- C7 (amended): `update_domain` checks the duplicate condition on
`newDomain` *before* looking for `oldDomain`, through a Python truthiness
test: if `newDomain` already exists and its owning account's name is
non-empty, the result is the duplicate error even when `oldDomain` is
absent; if `newDomain` does not exist — or its owner is the (falsy)
empty-named account, which skips the duplicate branch — an absent
`oldDomain` yields the not-found error. -/
theorem claim_C7_update_error_order (accounts : Accounts)
    (old_domain new_domain : String)
    (hv1 : pyNorm new_domain ≠ "")
    (hv2 : (pyNorm new_domain).data.contains '.' = true) :
    (∀ acc, find_domain accounts new_domain = some acc → acc ≠ "" →
      update_domain accounts old_domain new_domain =
        ((false, "Домен " ++ pyNorm new_domain ++ " уже существует"), accounts)) ∧
    ((find_domain accounts new_domain = none ∨
        find_domain accounts new_domain = some "") →
      find_domain accounts old_domain = none →
      update_domain accounts old_domain new_domain =
        ((false, "Домен " ++ pyNorm old_domain ++ " не найден"), accounts)) := by
  constructor
  · intro acc hacc hne
    unfold update_domain
    rw [if_neg (by rw [not_or]; exact ⟨hv1, not_not_intro hv2⟩)]
    rw [find_domain_pyNorm, hacc]
    dsimp only
    rw [if_neg hne]
  · intro hnew hold
    have hgo : update_domain_go (pyNorm old_domain) (pyNorm new_domain) accounts = none :=
      update_domain_go_eq_none.mpr (find_domain_eq_none.mp hold)
    have hproc : update_domain_proceed accounts (pyNorm old_domain) (pyNorm new_domain) =
        ((false, "Домен " ++ pyNorm old_domain ++ " не найден"), accounts) := by
      unfold update_domain_proceed
      rw [hgo]
    unfold update_domain
    rw [if_neg (by rw [not_or]; exact ⟨hv1, not_not_intro hv2⟩)]
    rcases hnew with hn | hn
    · rw [find_domain_pyNorm, hn]
      exact hproc
    · rw [find_domain_pyNorm, hn]
      dsimp only
      rw [if_pos rfl]
      exact hproc

theorem claim_C7_update_error_order_witness :
    update_domain [("acc", ["x.com"])] "absent.com" "x.com" =
      ((false, "Домен " ++ pyNorm "x.com" ++ " уже существует"), [("acc", ["x.com"])]) ∧
    update_domain [("acc", ["x.com"])] "absent.com" "new.com" =
      ((false, "Домен " ++ pyNorm "absent.com" ++ " не найден"), [("acc", ["x.com"])]) ∧
    update_domain [("", ["x.com"])] "absent.com" "x.com" =
      ((false, "Домен " ++ pyNorm "absent.com" ++ " не найден"), [("", ["x.com"])]) :=
  ⟨(claim_C7_update_error_order [("acc", ["x.com"])] "absent.com" "x.com"
      (by decide) (by decide)).1 "acc" (by decide) (by decide),
   (claim_C7_update_error_order [("acc", ["x.com"])] "absent.com" "new.com"
      (by decide) (by decide)).2 (Or.inl (by decide)) (by decide),
   (claim_C7_update_error_order [("", ["x.com"])] "absent.com" "x.com"
      (by decide) (by decide)).2 (Or.inr (by decide)) (by decide)⟩

/-- C7 (counterexample): with store `{acc: [x.com]}`, renaming the absent
`absent.com` to the existing `x.com` fails with the duplicate error, not
with the not-found error for `absent.com` that the claim requires. -/
theorem claim_C7_counterexample :
    find_domain [("acc", ["x.com"])] "absent.com" = none ∧
    (update_domain [("acc", ["x.com"])] "absent.com" "x.com").1 =
      (false, "Домен x.com уже существует") ∧
    (update_domain [("acc", ["x.com"])] "absent.com" "x.com").1.2 ≠
      "Домен absent.com не найден" := by
  refine ⟨by decide, by decide, by decide⟩

/-- C9: with an absent backing file or one whose contents are unparsable as
JSON, every repository operation behaves exactly as on the empty
`{"accounts": {}}` store — reads return the empty-store answers and
mutations act on (and persist) the empty store; no error escapes the
repository boundary. -/
theorem claim_C9_corrupt_file (f : RawFile)
    (h : f = RawFile.absent ∨ ∃ t, f = RawFile.corrupt t) :
    (∀ domain account, fileMutate (fun st => add_domain st domain account) f =
        fileMutate (fun st => add_domain st domain account) (RawFile.stored [])) ∧
    (∀ domain, fileMutate (fun st => remove_domain st domain) f =
        fileMutate (fun st => remove_domain st domain) (RawFile.stored [])) ∧
    (∀ o n, fileMutate (fun st => update_domain st o n) f =
        fileMutate (fun st => update_domain st o n) (RawFile.stored [])) ∧
    (∀ a, fileMutate (fun st => add_account st a) f =
        fileMutate (fun st => add_account st a) (RawFile.stored [])) ∧
    (∀ a, fileMutate (fun st => remove_account st a) f =
        fileMutate (fun st => remove_account st a) (RawFile.stored [])) ∧
    fileRead get_all_domains f = fileRead get_all_domains (RawFile.stored []) ∧
    (∀ d, fileRead (fun st => find_domain st d) f =
        fileRead (fun st => find_domain st d) (RawFile.stored [])) ∧
    (∀ q, fileRead (fun st => search_domains st q) f =
        fileRead (fun st => search_domains st q) (RawFile.stored [])) ∧
    (∀ a, fileRead (fun st => get_domains_by_account st a) f =
        fileRead (fun st => get_domains_by_account st a) (RawFile.stored [])) ∧
    fileRead get_accounts_list f = fileRead get_accounts_list (RawFile.stored []) ∧
    fileRead get_domains_count f = fileRead get_domains_count (RawFile.stored []) ∧
    fileRead get_accounts_count f = fileRead get_accounts_count (RawFile.stored []) ∧
    fileRead get_stats f = fileRead get_stats (RawFile.stored []) := by
  have hl : load_data f = [] := by
    rcases h with rfl | ⟨t, rfl⟩ <;> rfl
  have hl2 : load_data (RawFile.stored []) = [] := rfl
  refine ⟨?_, ?_, ?_, ?_, ?_, ?_, ?_, ?_, ?_, ?_, ?_, ?_, ?_⟩ <;> intros <;>
    simp only [fileMutate, fileRead, hl, hl2]

theorem claim_C9_corrupt_file_witness :
    (∀ domain account, fileMutate (fun st => add_domain st domain account)
        (RawFile.corrupt "not json") =
      fileMutate (fun st => add_domain st domain account) (RawFile.stored [])) ∧
    (∀ domain, fileMutate (fun st => remove_domain st domain) (RawFile.corrupt "not json") =
        fileMutate (fun st => remove_domain st domain) (RawFile.stored [])) ∧
    (∀ o n, fileMutate (fun st => update_domain st o n) (RawFile.corrupt "not json") =
        fileMutate (fun st => update_domain st o n) (RawFile.stored [])) ∧
    (∀ a, fileMutate (fun st => add_account st a) (RawFile.corrupt "not json") =
        fileMutate (fun st => add_account st a) (RawFile.stored [])) ∧
    (∀ a, fileMutate (fun st => remove_account st a) (RawFile.corrupt "not json") =
        fileMutate (fun st => remove_account st a) (RawFile.stored [])) ∧
    fileRead get_all_domains (RawFile.corrupt "not json") =
      fileRead get_all_domains (RawFile.stored []) ∧
    (∀ d, fileRead (fun st => find_domain st d) (RawFile.corrupt "not json") =
        fileRead (fun st => find_domain st d) (RawFile.stored [])) ∧
    (∀ q, fileRead (fun st => search_domains st q) (RawFile.corrupt "not json") =
        fileRead (fun st => search_domains st q) (RawFile.stored [])) ∧
    (∀ a, fileRead (fun st => get_domains_by_account st a) (RawFile.corrupt "not json") =
        fileRead (fun st => get_domains_by_account st a) (RawFile.stored [])) ∧
    fileRead get_accounts_list (RawFile.corrupt "not json") =
      fileRead get_accounts_list (RawFile.stored []) ∧
    fileRead get_domains_count (RawFile.corrupt "not json") =
      fileRead get_domains_count (RawFile.stored []) ∧
    fileRead get_accounts_count (RawFile.corrupt "not json") =
      fileRead get_accounts_count (RawFile.stored []) ∧
    fileRead get_stats (RawFile.corrupt "not json") =
      fileRead get_stats (RawFile.stored []) :=
  claim_C9_corrupt_file (RawFile.corrupt "not json") (Or.inr ⟨"not json", rfl⟩)

/-- C10: adding a valid, non-duplicate domain under an explicitly supplied
account that does not yet exist succeeds; the account is implicitly created
(appended to the store) with the new domain as its only entry. -/
theorem claim_C10_add_creates_account (accounts : Accounts) (domain a : String)
    (hd1 : pyNorm domain ≠ "") (hd2 : (pyNorm domain).data.contains '.' = true)
    (hfree : find_domain accounts domain = none)
    (ha : a ≠ "") (hk : hasKey accounts a = false) :
    add_domain accounts domain (some a) =
      ((true, "Домен " ++ pyNorm domain ++ " добавлен к " ++ a),
        accounts ++ [(a, [pyNorm domain])]) := by
  unfold add_domain
  rw [if_neg (by rw [not_or]; exact ⟨hd1, not_not_intro hd2⟩)]
  rw [find_domain_pyNorm, hfree]
  unfold add_domain_proceed
  dsimp only
  rw [if_neg ha]
  dsimp only
  unfold appendTo
  rw [hk]
  rw [if_neg (by decide)]

theorem claim_C10_add_creates_account_witness :
    add_domain [("first", ["a.com"])] "Example.com" (some "second") =
      ((true, "Домен " ++ pyNorm "Example.com" ++ " добавлен к " ++ "second"),
        [("first", ["a.com"])] ++ [("second", [pyNorm "Example.com"])]) :=
  claim_C10_add_creates_account [("first", ["a.com"])] "Example.com" "second"
    (by decide) (by decide) (by decide) (by decide) (by decide)

theorem getElem?_append_cons {α : Type} (pre post : List α) (x : α) :
    (pre ++ x :: post)[pre.length]? = some x := by
  induction pre with
  | nil => simp
  | cons h t ih => simpa using ih

theorem set_append_cons {α : Type} (pre post : List α) (x y : α) :
    (pre ++ x :: post).set pre.length y = pre ++ y :: post := by
  induction pre with
  | nil => rfl
  | cons h t ih => simpa using ih

/-- C3 (amended): `add_domain` rejects an empty or dot-free domain and
leaves the store unchanged; on a valid domain not yet present anywhere —
with at least one account in the store — it succeeds, appends the normalised
domain to the first account, and the flat domain list then contains it
exactly once; an immediately repeated add fails with a duplicate error
naming the owning account *provided that account's name is non-empty*
(`if existing:` at line 97 is a truthiness test, so an empty-named owner is
falsy, the duplicate check is skipped and the repeated add succeeds). -/
theorem claim_C3_add_semantics (accounts : Accounts) (domain : String) :
    (pyNorm domain = "" ∨ (pyNorm domain).data.contains '.' = false →
      add_domain accounts domain none =
        ((false, "Некорректный формат домена"), accounts)) ∧
    (pyNorm domain ≠ "" → (pyNorm domain).data.contains '.' = true →
      find_domain accounts domain = none →
      ∀ a0 ds0 rest, accounts = (a0, ds0) :: rest → a0 ≠ "" →
      add_domain accounts domain none =
        ((true, "Домен " ++ pyNorm domain ++ " добавлен к " ++ a0),
          (a0, ds0 ++ [pyNorm domain]) :: rest) ∧
      (get_all_domains ((a0, ds0 ++ [pyNorm domain]) :: rest)).count (pyNorm domain) = 1 ∧
      find_domain ((a0, ds0 ++ [pyNorm domain]) :: rest) domain = some a0 ∧
      add_domain ((a0, ds0 ++ [pyNorm domain]) :: rest) domain none =
        ((false, "Домен " ++ pyNorm domain ++ " уже существует в " ++ a0),
          (a0, ds0 ++ [pyNorm domain]) :: rest)) := by
  constructor
  · intro hbad
    unfold add_domain
    rw [if_pos (by rcases hbad with h | h; exact Or.inl h; exact Or.inr (by rw [h]; exact Bool.false_ne_true))]
  · intro hv1 hv2 hfree a0 ds0 rest haccs ha0
    subst haccs
    have hchar := find_domain_eq_none.mp hfree
    have hfind2 : find_domain ((a0, ds0 ++ [pyNorm domain]) :: rest) domain = some a0 := by
      unfold find_domain find_domain_go
      rw [if_pos]
      rw [List.any_eq_true]
      refine ⟨pyNorm domain, List.mem_append_right _ (List.mem_singleton.mpr rfl), ?_⟩
      rw [beq_iff_eq, pyLower_pyNorm]
    have hadd1 : add_domain ((a0, ds0) :: rest) domain none =
        ((true, "Домен " ++ pyNorm domain ++ " добавлен к " ++ a0),
          (a0, ds0 ++ [pyNorm domain]) :: rest) := by
      unfold add_domain
      rw [if_neg (by rw [not_or]; exact ⟨hv1, not_not_intro hv2⟩)]
      rw [find_domain_pyNorm, hfree]
      unfold add_domain_proceed
      dsimp only
      unfold appendTo
      rw [if_pos (by unfold hasKey; rw [List.any_cons]; exact Bool.or_eq_true_iff.mpr (Or.inl (beq_self_eq_true a0)))]
      unfold updateKey
      rw [if_pos (beq_self_eq_true a0)]
    refine ⟨hadd1, ?_, hfind2, ?_⟩
    · rw [get_all_domains_cons, List.count_append, List.count_append]
      have hz : ∀ L : List String, (∀ s ∈ L, pyLower s ≠ pyNorm domain) →
          L.count (pyNorm domain) = 0 := by
        intro L hL
        rw [List.count_eq_zero]
        intro hmem
        exact (hL _ hmem) (pyLower_pyNorm domain)
      rw [hz ds0 (fun s hs => hchar s (by rw [get_all_domains_cons]; exact List.mem_append_left _ hs))]
      rw [hz (get_all_domains rest) (fun s hs => hchar s (by rw [get_all_domains_cons]; exact List.mem_append_right _ hs))]
      rw [List.count_singleton]
      rw [if_pos (beq_self_eq_true _)]
    · unfold add_domain
      rw [if_neg (by rw [not_or]; exact ⟨hv1, not_not_intro hv2⟩)]
      rw [find_domain_pyNorm, hfind2]
      dsimp only
      rw [if_neg ha0]

theorem claim_C3_add_semantics_witness :
    add_domain [("acc", ["other.com"])] "bad" none =
      ((false, "Некорректный формат домена"), [("acc", ["other.com"])]) ∧
    (add_domain [("acc", ["other.com"])] " ExAmple.Com" none =
        ((true, "Домен " ++ pyNorm " ExAmple.Com" ++ " добавлен к " ++ "acc"),
          [("acc", ["other.com"] ++ [pyNorm " ExAmple.Com"])]) ∧
      (get_all_domains [("acc", ["other.com"] ++ [pyNorm " ExAmple.Com"])]).count
        (pyNorm " ExAmple.Com") = 1 ∧
      find_domain [("acc", ["other.com"] ++ [pyNorm " ExAmple.Com"])] " ExAmple.Com" =
        some "acc" ∧
      add_domain [("acc", ["other.com"] ++ [pyNorm " ExAmple.Com"])] " ExAmple.Com" none =
        ((false, "Домен " ++ pyNorm " ExAmple.Com" ++ " уже существует в " ++ "acc"),
          [("acc", ["other.com"] ++ [pyNorm " ExAmple.Com"])])) :=
  ⟨(claim_C3_add_semantics [("acc", ["other.com"])] "bad").1 (by decide),
   (claim_C3_add_semantics [("acc", ["other.com"])] " ExAmple.Com").2
     (by decide) (by decide) (by decide) "acc" ["other.com"] [] rfl (by decide)⟩

/-- C3 (counterexample): with the store's only account named `""` — a state
`add_account("")` creates, since account names are not validated — a
repeated `add_domain("x.com")` does not fail with the duplicate error: the
owner name `""` is falsy in `if existing:`, the duplicate check is skipped,
the call succeeds and the store ends up holding the domain twice. -/
theorem claim_C3_counterexample :
    (add_account [] "").2 = [("", [])] ∧
    (add_domain [("", [])] "x.com" none).1.1 = true ∧
    (add_domain (add_domain [("", [])] "x.com" none).2 "x.com" none).1.1 = true ∧
    (get_all_domains
      (add_domain (add_domain [("", [])] "x.com" none).2 "x.com" none).2).count
      "x.com" = 2 := by
  refine ⟨by decide, by decide, by decide, by decide⟩

/-- C5: renaming an existing domain `a` to a fresh, well-formed `b` (in a
store satisfying the repository invariant) succeeds and replaces in place:
the flat domain list afterwards is the old one with the entry at `a`'s
position overwritten by the normalised `b`; that list contains `b` and no
longer contains `a`. -/
theorem claim_C5_rename_preserves_position (accounts : Accounts) (a b : String)
    (hInv : RepoInv accounts)
    (hold : (find_domain accounts a).isSome = true)
    (hv1 : pyNorm b ≠ "") (hv2 : (pyNorm b).data.contains '.' = true)
    (hnew : find_domain accounts b = none) :
    (update_domain accounts a b).1.1 = true ∧
    ∃ k : Nat,
      (get_all_domains accounts)[k]? = some (pyNorm a) ∧
      get_all_domains (update_domain accounts a b).2 =
        (get_all_domains accounts).set k (pyNorm b) ∧
      pyNorm b ∈ get_all_domains (update_domain accounts a b).2 ∧
      pyNorm a ∉ get_all_domains (update_domain accounts a b).2 := by
  obtain ⟨hpair, hnorm⟩ := hInv
  have hnchar := find_domain_eq_none.mp hnew
  cases hgo : update_domain_go (pyNorm a) (pyNorm b) accounts with
  | none =>
    have : find_domain accounts a = none :=
      find_domain_eq_none.mpr (update_domain_go_eq_none.mp hgo)
    rw [this] at hold
    cases hold
  | some accounts2 =>
    have hupd : update_domain accounts a b = ((true,
        "Домен " ++ pyNorm a ++ " изменён на " ++ pyNorm b), accounts2) := by
      unfold update_domain
      rw [if_neg (by rw [not_or]; exact ⟨hv1, not_not_intro hv2⟩)]
      rw [find_domain_pyNorm, hnew]
      unfold update_domain_proceed
      rw [hgo]
    obtain ⟨pre, x, post, hfl, hfl2, hlow, hpre⟩ := update_domain_go_eq_some hgo
    have hxmem : x ∈ get_all_domains accounts := by
      rw [hfl]; exact List.mem_append_right _ (List.mem_cons_self x post)
    have hxnorm : x = pyNorm a := by
      rw [← (hnorm x hxmem).1, hlow]
    subst hxnorm
    rw [hupd]
    refine ⟨rfl, pre.length, ?_, ?_, ?_, ?_⟩
    · rw [hfl]
      exact getElem?_append_cons pre post (pyNorm a)
    · rw [hfl, hfl2, set_append_cons]
    · rw [hfl2]
      exact List.mem_append_right _ (List.mem_cons_self _ post)
    · rw [hfl2]
      intro hmem
      rcases List.mem_append.mp hmem with hA | hx
      · exact (hpre _ hA) (pyLower_pyNorm a)
      · rcases List.mem_cons.mp hx with heq | hB
        · exact (hnchar _ hxmem) ((pyLower_pyNorm a).trans heq)
        · have hx2 : ∀ y ∈ post, pyLower (pyNorm a) ≠ pyLower y := by
            rw [hfl] at hpair
            have h2 := (List.pairwise_append.mp hpair).2.1
            exact (List.pairwise_cons.mp h2).1
          exact (hx2 _ hB) rfl

theorem claim_C5_rename_preserves_position_witness :
    (update_domain [("acc", ["x.com", "y.com"])] "Y.com" "z.com").1.1 = true ∧
    ∃ k : Nat,
      (get_all_domains [("acc", ["x.com", "y.com"])])[k]? = some (pyNorm "Y.com") ∧
      get_all_domains (update_domain [("acc", ["x.com", "y.com"])] "Y.com" "z.com").2 =
        (get_all_domains [("acc", ["x.com", "y.com"])]).set k (pyNorm "z.com") ∧
      pyNorm "z.com" ∈ get_all_domains
        (update_domain [("acc", ["x.com", "y.com"])] "Y.com" "z.com").2 ∧
      pyNorm "Y.com" ∉ get_all_domains
        (update_domain [("acc", ["x.com", "y.com"])] "Y.com" "z.com").2 :=
  claim_C5_rename_preserves_position [("acc", ["x.com", "y.com"])] "Y.com" "z.com"
    ⟨by decide, by decide⟩ (by decide) (by decide) (by decide) (by decide)

theorem flatten_sublist_of_sublist {xs ys : Accounts} (h : xs.Sublist ys) :
    (get_all_domains xs).Sublist (get_all_domains ys) := by
  induction h with
  | slnil => exact List.Sublist.refl _
  | cons hd _ ih =>
    rw [get_all_domains_cons]
    exact ih.trans (List.sublist_append_right _ _)
  | cons₂ hd _ ih =>
    rw [get_all_domains_cons, get_all_domains_cons]
    exact ih.append_left _

/-- `RepoInv` transfers along a sublist of the flattened domain list. -/
theorem repoInv_of_sublist {xs ys : Accounts}
    (h : (get_all_domains xs).Sublist (get_all_domains ys))
    (hy : RepoInv ys) : RepoInv xs :=
  ⟨List.Pairwise.sublist h hy.1, fun s hs => hy.2 s (h.subset hs)⟩

/-- The store left behind by `add_domain` at a store with no empty-named
account: either unchanged (validation, duplicate or no-account failure) or
the old flattened list with the normalised domain inserted, the domain being
fresh case-insensitively. -/
theorem add_domain_state (accounts : Accounts) (domain : String)
    (account : Option String) (hkeys : NoEmptyKey accounts) :
    (add_domain accounts domain account).2 = accounts ∨
    (find_domain accounts domain = none ∧
      ∃ A B, get_all_domains accounts = A ++ B ∧
        get_all_domains (add_domain accounts domain account).2 =
          A ++ pyNorm domain :: B) := by
  have hproceed : find_domain accounts domain = none →
      (add_domain_proceed accounts (pyNorm domain) account).2 = accounts ∨
      (find_domain accounts domain = none ∧
        ∃ A B, get_all_domains accounts = A ++ B ∧
          get_all_domains (add_domain_proceed accounts (pyNorm domain) account).2 =
            A ++ pyNorm domain :: B) := by
    intro hf2
    unfold add_domain_proceed
    cases account with
    | none =>
      dsimp only
      cases accounts with
      | nil => left; rfl
      | cons hd rest =>
        obtain ⟨a0, ds0⟩ := hd
        right
        exact ⟨hf2, appendTo_flatten _ a0 _⟩
    | some a =>
      dsimp only
      by_cases ha : a = ""
      · rw [if_pos ha]
        dsimp only
        cases accounts with
        | nil => left; rfl
        | cons hd rest =>
          obtain ⟨a0, ds0⟩ := hd
          right
          exact ⟨hf2, appendTo_flatten _ a0 _⟩
      · rw [if_neg ha]
        dsimp only
        right
        exact ⟨hf2, appendTo_flatten _ a _⟩
  unfold add_domain
  by_cases hval : pyNorm domain = "" ∨ ¬ (pyNorm domain).data.contains '.' = true
  · rw [if_pos hval]
    left; rfl
  · rw [if_neg hval]
    cases hf : find_domain accounts (pyNorm domain) with
    | some e =>
      have he : e ≠ "" := find_domain_key_ne_empty hkeys hf
      dsimp only
      rw [if_neg he]
      left; rfl
    | none =>
      exact hproceed (by rw [← find_domain_pyNorm]; exact hf)

/-- The store left behind by `remove_domain` flattens to a sublist of the
old one. -/
theorem remove_domain_sublist (accounts : Accounts) (domain : String) :
    (get_all_domains (remove_domain accounts domain).2).Sublist
      (get_all_domains accounts) := by
  unfold remove_domain
  dsimp only
  cases hgo : remove_domain_go (pyNorm domain) accounts with
  | none => exact List.Sublist.refl _
  | some p =>
    obtain ⟨acct, rem, accounts2⟩ := p
    dsimp only
    obtain ⟨pre, post, h1, h2, _⟩ := remove_domain_go_eq_some hgo
    rw [h1, h2]
    exact (List.sublist_cons_self rem post).append_left pre

/-- The store left behind by `update_domain` at a store with no empty-named
account: either unchanged or the old flattened list with one entry replaced
by the normalised new domain, the new domain being fresh
case-insensitively. -/
theorem update_domain_state (accounts : Accounts) (o n : String)
    (hkeys : NoEmptyKey accounts) :
    (update_domain accounts o n).2 = accounts ∨
    (find_domain accounts n = none ∧
      ∃ pre x post, get_all_domains accounts = pre ++ x :: post ∧
        get_all_domains (update_domain accounts o n).2 =
          pre ++ pyNorm n :: post) := by
  unfold update_domain
  by_cases hval : pyNorm n = "" ∨ ¬ (pyNorm n).data.contains '.' = true
  · rw [if_pos hval]
    left; rfl
  · rw [if_neg hval]
    cases hf : find_domain accounts (pyNorm n) with
    | some e =>
      have he : e ≠ "" := find_domain_key_ne_empty hkeys hf
      dsimp only
      rw [if_neg he]
      left; rfl
    | none =>
      have hf2 : find_domain accounts n = none := by
        rw [← find_domain_pyNorm]; exact hf
      unfold update_domain_proceed
      cases hgo : update_domain_go (pyNorm o) (pyNorm n) accounts with
      | none => left; rfl
      | some accounts2 =>
        obtain ⟨pre, x, post, ha1, ha2, _, _⟩ := update_domain_go_eq_some hgo
        right
        exact ⟨hf2, pre, x, post, ha1, ha2⟩

/-- `add_account` never changes the flattened domain list. -/
theorem add_account_flatten (accounts : Accounts) (a : String) :
    get_all_domains (add_account accounts a).2 = get_all_domains accounts := by
  unfold add_account
  by_cases hk : hasKey accounts (pyStrip a)
  · rw [if_pos hk]
  · rw [if_neg hk]
    dsimp only
    rw [get_all_domains_append]
    simp [get_all_domains]

/-- The store left behind by `remove_account` flattens to a sublist of the
old one. -/
theorem remove_account_sublist (accounts : Accounts) (a : String) :
    (get_all_domains (remove_account accounts a).2).Sublist
      (get_all_domains accounts) := by
  unfold remove_account
  cases hf : accounts.find? (fun p => p.1 == a) with
  | none => exact List.Sublist.refl _
  | some p =>
    dsimp only
    exact flatten_sublist_of_sublist (List.eraseP_sublist accounts)

/-- One mutating call of the `DomainManager` API. -/
inductive MutOp where
  | addDomain (domain : String) (account : Option String)
  | removeDomain (domain : String)
  | updateDomain (old_domain new_domain : String)
  | addAccount (account : String)
  | removeAccount (account : String)

/-- The store left behind by a mutating call. -/
def runMut (op : MutOp) (accounts : Accounts) : Accounts :=
  match op with
  | .addDomain d a => (add_domain accounts d a).2
  | .removeDomain d => (remove_domain accounts d).2
  | .updateDomain o n => (update_domain accounts o n).2
  | .addAccount a => (add_account accounts a).2
  | .removeAccount a => (remove_account accounts a).2

/-- C4 (amended): every mutating operation preserves the repository
invariant — all stored domains pairwise distinct under case-insensitive
comparison, each in lowercase, trimmed form — *provided no account is named
the empty string* (an empty-named owner is falsy in the truthiness-based
duplicate checks of `add_domain` and `update_domain`, which then skip the
duplicate error) and, for `add_account`, the supplied name does not strip to
the empty string; the no-empty-name side condition is itself preserved. -/
theorem claim_C4_invariant_preserved (op : MutOp) (accounts : Accounts)
    (h : RepoInv accounts) (hkeys : NoEmptyKey accounts)
    (hop : ∀ a, op = MutOp.addAccount a → pyStrip a ≠ "") :
    RepoInv (runMut op accounts) ∧ NoEmptyKey (runMut op accounts) := by
  cases op with
  | addDomain d a =>
    constructor
    · show RepoInv (add_domain accounts d a).2
      rcases add_domain_state accounts d a hkeys with heq | ⟨hfree, A, B, hAB, hAB2⟩
      · rw [heq]; exact h
      · obtain ⟨hpair, hnorm⟩ := h
        have hchar := find_domain_eq_none.mp hfree
        constructor
        · rw [hAB2]
          apply pairwise_insert_middle
          · rw [← hAB]; exact hpair
          · intro s hs
            rw [pyLower_pyNorm]
            exact hchar s (by rw [hAB]; exact hs)
        · intro s hs
          rw [hAB2] at hs
          rcases List.mem_append.mp hs with hA | hx
          · exact hnorm s (by rw [hAB]; exact List.mem_append_left _ hA)
          · rcases List.mem_cons.mp hx with rfl | hB
            · exact ⟨pyLower_pyNorm d, pyStrip_pyNorm d⟩
            · exact hnorm s (by rw [hAB]; exact List.mem_append_right _ hB)
    · exact noEmptyKey_add_domain accounts d a hkeys
  | removeDomain d =>
    exact ⟨repoInv_of_sublist (remove_domain_sublist accounts d) h,
      noEmptyKey_remove_domain accounts d hkeys⟩
  | updateDomain o n =>
    constructor
    · show RepoInv (update_domain accounts o n).2
      rcases update_domain_state accounts o n hkeys with heq | ⟨hfree, pre, x, post, hAB, hAB2⟩
      · rw [heq]; exact h
      · obtain ⟨hpair, hnorm⟩ := h
        have hchar := find_domain_eq_none.mp hfree
        have hsub : (pre ++ post).Sublist (get_all_domains accounts) := by
          rw [hAB]
          exact (List.sublist_cons_self x post).append_left pre
        constructor
        · rw [hAB2]
          apply pairwise_insert_middle
          · exact List.Pairwise.sublist hsub hpair
          · intro s hs
            rw [pyLower_pyNorm]
            exact hchar s (hsub.subset hs)
        · intro s hs
          rw [hAB2] at hs
          rcases List.mem_append.mp hs with hA | hx
          · exact hnorm s (hsub.subset (List.mem_append_left _ hA))
          · rcases List.mem_cons.mp hx with rfl | hB
            · exact ⟨pyLower_pyNorm n, pyStrip_pyNorm n⟩
            · exact hnorm s (hsub.subset (List.mem_append_right _ hB))
    · exact noEmptyKey_update_domain accounts o n hkeys
  | addAccount a =>
    constructor
    · show RepoInv (add_account accounts a).2
      obtain ⟨hpair, hnorm⟩ := h
      constructor
      · rw [add_account_flatten]; exact hpair
      · intro s hs
        rw [add_account_flatten] at hs
        exact hnorm s hs
    · exact noEmptyKey_add_account accounts a hkeys (hop a rfl)
  | removeAccount a =>
    exact ⟨repoInv_of_sublist (remove_account_sublist accounts a) h,
      noEmptyKey_remove_account accounts a hkeys⟩

theorem claim_C4_invariant_preserved_witness :
    RepoInv (runMut (MutOp.addDomain " New.Com " (some "fresh"))
      [("acc", ["x.com", "y.com"]), ("b", ["z.org"])]) ∧
    NoEmptyKey (runMut (MutOp.addDomain " New.Com " (some "fresh"))
      [("acc", ["x.com", "y.com"]), ("b", ["z.org"])]) :=
  claim_C4_invariant_preserved (MutOp.addDomain " New.Com " (some "fresh"))
    [("acc", ["x.com", "y.com"]), ("b", ["z.org"])] ⟨by decide, by decide⟩
    (by unfold NoEmptyKey; decide) (fun a ha => by cases ha)

/-- C4 (counterexample): the store `{"": ["x.com"]}` — reachable via
`add_account("")` then `add_domain("x.com")` — satisfies the repository
invariant, yet `add_domain("x.com")` there skips the duplicate check (the
owner name `""` is falsy in `if existing:` at line 97) and appends a second
copy, breaking case-insensitive uniqueness. -/
theorem claim_C4_counterexample :
    RepoInv [("", ["x.com"])] ∧
    ¬ RepoInv (runMut (MutOp.addDomain "x.com" none) [("", ["x.com"])]) := by
  constructor
  · exact ⟨by decide, by decide⟩
  · intro hInv
    have hflat : get_all_domains (runMut (MutOp.addDomain "x.com" none)
        [("", ["x.com"])]) = ["x.com", "x.com"] := by decide
    have hpair := hInv.1
    rw [hflat] at hpair
    exact (List.pairwise_cons.mp hpair).1 "x.com" (List.mem_singleton.mpr rfl) rfl
